import Mathlib

/-!
Verification development for the BearSSL LRU session cache
(src/src/ssl/ssl_lru.c) and the SSL error constants
(src/inc/bearssl_ssl.h).

The cache works over a caller-supplied byte slab.  We embed the slab as a
total function from offsets to byte values, and each C helper
(br_enc32be/br_dec32be, the GETSET accessors, find_node,
find_replacement_node, set_link, remove_node, lru_save, lru_load,
br_ssl_session_cache_lru_init) as a Lean function over that state.  The
unbounded tree-walk loops of the C code are embedded with an explicit
fuel argument; the fuel passed by the top-level operations exceeds the
number of allocated entries, so it never runs out on well-formed trees.

HMAC and the HMAC-DRBG are not part of the sources under verification
(they live in other files of the repository); they are taken as
parameters, as described on the Hmac and ServerCtx declarations.
-/

/- ===== Constants from ssl_lru.c ===== -/

def SESSION_ID_LEN : Nat := 32
def MASTER_SECRET_LEN : Nat := 48

def SESSION_ID_OFF : Nat := 0
def MASTER_SECRET_OFF : Nat := 32
def VERSION_OFF : Nat := 80
def CIPHER_SUITE_OFF : Nat := 82
def LIST_PREV_OFF : Nat := 84
def LIST_NEXT_OFF : Nat := 88
def TREE_LEFT_OFF : Nat := 92
def TREE_RIGHT_OFF : Nat := 96

def LRU_ENTRY_LEN : Nat := 100

/-- The null address ((uint32_t)-1 in the C source). -/
def ADDR_NULL : Nat := 4294967295

/- ===== Byte-level primitives (br_enc32be, br_dec32be, br_enc16be,
   br_dec16be, memcpy, memcmp over the slab) ===== -/

/-- br_enc32be: write the 32-bit value v in big-endian order at offset
off of the slab s. -/
def enc32be (s : Nat → Nat) (off v : Nat) : Nat → Nat := fun i =>
  if i = off then v / 16777216 % 256
  else if i = off + 1 then v / 65536 % 256
  else if i = off + 2 then v / 256 % 256
  else if i = off + 3 then v % 256
  else s i

/-- br_dec32be: read a 32-bit big-endian value at offset off. -/
def dec32be (s : Nat → Nat) (off : Nat) : Nat :=
  s off * 16777216 + s (off + 1) * 65536 + s (off + 2) * 256 + s (off + 3)

/-- br_enc16be: write the 16-bit value v in big-endian order at offset off. -/
def enc16be (s : Nat → Nat) (off v : Nat) : Nat → Nat := fun i =>
  if i = off then v / 256 % 256
  else if i = off + 1 then v % 256
  else s i

/-- br_dec16be: read a 16-bit big-endian value at offset off. -/
def dec16be (s : Nat → Nat) (off : Nat) : Nat :=
  s off * 256 + s (off + 1)

/-- memcpy into the slab: write the bytes of l starting at offset off. -/
def writeBytes (s : Nat → Nat) (off : Nat) (l : List Nat) : Nat → Nat := fun i =>
  if off ≤ i ∧ i - off < l.length then l.getD (i - off) 0 else s i

/-- Read n bytes of the slab starting at offset off. -/
def readBytes (s : Nat → Nat) (off : Nat) : Nat → List Nat
  | 0 => []
  | Nat.succ n => s off :: readBytes s (off + 1) n

/-- memcmp over byte sequences (three-way lexicographic comparison). -/
def cmpBytes : List Nat → List Nat → Ordering
  | [], [] => Ordering.eq
  | [], _ :: _ => Ordering.lt
  | _ :: _, [] => Ordering.gt
  | a :: as, b :: bs =>
    if a < b then Ordering.lt
    else if b < a then Ordering.gt
    else cmpBytes as bs

/- ===== Cache state (br_ssl_session_cache_lru) ===== -/

/-- The br_ssl_session_cache_lru context.  The store is the
caller-supplied byte slab; store_len, store_ptr, index_key, hash,
init_done, head, tail and root are the remaining structure fields. -/
structure Cache where
  store : Nat → Nat
  store_len : Nat
  store_ptr : Nat
  index_key : List Nat
  hash : Nat
  init_done : Bool
  head : Nat
  tail : Nat
  root : Nat

/-- The br_ssl_session_parameters structure.  In C, session_id is a
32-byte array and master_secret a 48-byte array. -/
structure SessionParams where
  session_id : List Nat
  session_id_len : Nat
  version : Nat
  cipher_suite : Nat
  master_secret : List Nat

/-- Modelled from the spec: the HMAC implementation (br_hmac_key_init,
br_hmac_init, br_hmac_update, br_hmac_out) is not among the source files
under src/; an Hmac value abstracts it as a function from hash
identifier, key bytes and message bytes to digest bytes. -/
abbrev Hmac := Nat → List Nat → List Nat → List Nat

/-- Modelled from the spec: the SSL server context and its HMAC-DRBG
(br_hmac_drbg_generate, br_hmac_drbg_get_hash) are not among the source
files under src/.  rng abstracts the DRBG state (stepped once per
generate call) and rngHash the hash function identifier associated with
the DRBG. -/
structure ServerCtx where
  rng : Nat
  rngHash : Nat

/- ===== GETSET accessors ===== -/

def get_prev (cc : Cache) (x : Nat) : Nat := dec32be cc.store (x + LIST_PREV_OFF)
def set_prev (cc : Cache) (x v : Nat) : Cache :=
  { cc with store := enc32be cc.store (x + LIST_PREV_OFF) v }
def get_next (cc : Cache) (x : Nat) : Nat := dec32be cc.store (x + LIST_NEXT_OFF)
def set_next (cc : Cache) (x v : Nat) : Cache :=
  { cc with store := enc32be cc.store (x + LIST_NEXT_OFF) v }
def get_left (cc : Cache) (x : Nat) : Nat := dec32be cc.store (x + TREE_LEFT_OFF)
def set_left (cc : Cache) (x v : Nat) : Cache :=
  { cc with store := enc32be cc.store (x + TREE_LEFT_OFF) v }
def get_right (cc : Cache) (x : Nat) : Nat := dec32be cc.store (x + TREE_RIGHT_OFF)
def set_right (cc : Cache) (x v : Nat) : Cache :=
  { cc with store := enc32be cc.store (x + TREE_RIGHT_OFF) v }

/- ===== mask_id ===== -/

/-- mask_id: copy the session ID, then overwrite its first bytes with
the HMAC (keyed by index_key, using the cache's recorded hash function)
of the 32-byte ID, truncated to at most 32 bytes. -/
def mask_id (hmac : Hmac) (cc : Cache) (src : List Nat) : List Nat :=
  let dst := src.take SESSION_ID_LEN
  let hm := (hmac cc.hash cc.index_key (src.take SESSION_ID_LEN)).take SESSION_ID_LEN
  hm ++ dst.drop hm.length

/- ===== find_node ===== -/

/-- Fuel passed to the embedded tree-walk loops: one more than the
number of allocated entries. -/
def nodeFuel (cc : Cache) : Nat := cc.store_ptr / LRU_ENTRY_LEN + 1

/-- Loop body of find_node.  x is the current node, y the address of the
last followed link (ADDR_NULL while at the root).  Returns the found
node (or ADDR_NULL) and the last followed link. -/
def find_node_go (cc : Cache) (id : List Nat) : Nat → Nat → Nat → Nat × Nat
  | 0, _, y => (ADDR_NULL, y)
  | Nat.succ fuel, x, y =>
    if x = ADDR_NULL then (ADDR_NULL, y)
    else
      match cmpBytes id (readBytes cc.store (x + SESSION_ID_OFF) SESSION_ID_LEN) with
      | Ordering.lt => find_node_go cc id fuel (get_left cc x) (x + TREE_LEFT_OFF)
      | Ordering.eq => (x, y)
      | Ordering.gt => find_node_go cc id fuel (get_right cc x) (x + TREE_RIGHT_OFF)

/-- find_node: search the tree for id.  First component is the node
address (ADDR_NULL if absent), second is the address of the last
followed link (ADDR_NULL if the search ended at the root). -/
def find_node (cc : Cache) (id : List Nat) : Nat × Nat :=
  find_node_go cc id (nodeFuel cc) cc.root ADDR_NULL

/- ===== find_replacement_node ===== -/

/-- Rightmost-descendant loop of find_replacement_node. -/
def repl_right (cc : Cache) : Nat → Nat → Nat → Nat × Nat
  | 0, y1, y2 => (y1, y2)
  | Nat.succ fuel, y1, y2 =>
    let z := get_right cc y1
    if z = ADDR_NULL then (y1, y2) else repl_right cc fuel z (y1 + TREE_RIGHT_OFF)

/-- Leftmost-descendant loop of find_replacement_node. -/
def repl_left (cc : Cache) : Nat → Nat → Nat → Nat × Nat
  | 0, y1, y2 => (y1, y2)
  | Nat.succ fuel, y1, y2 =>
    let z := get_left cc y1
    if z = ADDR_NULL then (y1, y2) else repl_left cc fuel z (y1 + TREE_LEFT_OFF)

/-- find_replacement_node: the rightmost left-descendant of x if x has a
left child, else the leftmost right-descendant if x has a right child,
else ADDR_NULL.  Second component is the address of the link that points
to the replacement node. -/
def find_replacement_node (cc : Cache) (x : Nat) : Nat × Nat :=
  let y1 := get_left cc x
  if y1 ≠ ADDR_NULL then repl_right cc (nodeFuel cc) y1 (x + TREE_LEFT_OFF)
  else
    let y1 := get_right cc x
    if y1 ≠ ADDR_NULL then repl_left cc (nodeFuel cc) y1 (x + TREE_RIGHT_OFF)
    else (ADDR_NULL, ADDR_NULL)

/- ===== set_link, remove_node ===== -/

/-- set_link: store x through the link address alx; ADDR_NULL designates
the root pointer. -/
def set_link (cc : Cache) (alx x : Nat) : Cache :=
  if alx = ADDR_NULL then { cc with root := x }
  else { cc with store := enc32be cc.store alx x }

/-- remove_node: find the ancestor link of x, find the replacement node,
unlink the replacement and put it in the place of x. -/
def remove_node (cc : Cache) (x : Nat) : Cache :=
  let alx := (find_node cc (readBytes cc.store (x + SESSION_ID_OFF) SESSION_ID_LEN)).2
  let r := find_replacement_node cc x
  let cc := set_link cc r.2 ADDR_NULL
  set_link cc alx r.1

/- ===== lru_save ===== -/

/-- First-save key initialisation step of lru_save: when init_done is
not set, draw index_key from the server DRBG (stepping its state) and
snapshot the DRBG's hash function. -/
def save_key_init (drbg : Nat → List Nat) (cc : Cache) (srv : ServerCtx) :
    Cache × ServerCtx :=
  if cc.init_done then (cc, srv)
  else ({ cc with index_key := drbg srv.rng, hash := srv.rngHash, init_done := true },
        { srv with rng := srv.rng + 1 })

/-- Tail-eviction step of lru_save: unlink the list tail and remove it
from the tree; returns the updated cache and the freed address. -/
def lru_evict_tail (cc : Cache) : Cache × Nat :=
  let x := cc.tail
  let t := get_prev cc x
  let cc := { cc with tail := t }
  let cc := if t = ADDR_NULL then { cc with head := ADDR_NULL } else set_next cc t ADDR_NULL
  (remove_node cc x, x)

/-- Link phase of the insertion step of lru_save: link the entry at
address x into the tree at the emplacement found for id and make it the
list head. -/
def lru_insert_link (cc : Cache) (x : Nat) (id : List Nat) : Cache :=
  let alx := (find_node cc id).2
  let cc := set_link cc alx x
  let cc := set_left cc x ADDR_NULL
  let cc := set_right cc x ADDR_NULL
  let cc := if cc.head = ADDR_NULL then { cc with tail := x } else set_prev cc cc.head x
  let cc := set_prev cc x ADDR_NULL
  let cc := set_next cc x cc.head
  { cc with head := x }

/-- Insertion step of lru_save: the link phase, then fill in the masked
ID, master secret, version and cipher suite of the new entry. -/
def lru_insert (cc : Cache) (x : Nat) (id : List Nat) (params : SessionParams) : Cache :=
  let cc := lru_insert_link cc x id
  let cc := { cc with store := writeBytes cc.store (x + SESSION_ID_OFF) (id.take SESSION_ID_LEN) }
  let cc := { cc with store := writeBytes cc.store (x + MASTER_SECRET_OFF)
                        (params.master_secret.take MASTER_SECRET_LEN) }
  let cc := { cc with store := enc16be cc.store (x + VERSION_OFF) params.version }
  { cc with store := enc16be cc.store (x + CIPHER_SUITE_OFF) params.cipher_suite }

/-- lru_save: drop if the slab cannot hold one entry; initialise the
index key on first save; drop on masked-ID collision; otherwise allocate
(or evict the list tail) and insert. -/
def lru_save (hmac : Hmac) (drbg : Nat → List Nat) (cc : Cache) (srv : ServerCtx)
    (params : SessionParams) : Cache × ServerCtx :=
  if cc.store_len < LRU_ENTRY_LEN then (cc, srv) else
  let p := save_key_init drbg cc srv
  let cc := p.1
  let id := mask_id hmac cc params.session_id
  if (find_node cc id).1 ≠ ADDR_NULL then (cc, p.2) else
  let q :=
    if cc.store_ptr > cc.store_len - LRU_ENTRY_LEN then lru_evict_tail cc
    else ({ cc with store_ptr := cc.store_ptr + LRU_ENTRY_LEN }, cc.store_ptr)
  (lru_insert q.1 q.2 id params, p.2)

/- ===== lru_load ===== -/

/-- Move-to-head step of lru_load: when the found node is not the list
head, unlink it and relink it at the head. -/
def lru_tohead (cc : Cache) (x : Nat) : Cache :=
  if x ≠ cc.head then
    let p := get_prev cc x
    let n := get_next cc x
    let cc := set_next cc p n
    let cc := if n = ADDR_NULL then { cc with tail := p } else set_prev cc n p
    let cc := set_prev cc cc.head x
    let cc := set_next cc x cc.head
    let cc := set_prev cc x ADDR_NULL
    { cc with head := x }
  else cc

/-- lru_load: return 0 if the index key was never initialised; otherwise
look up the masked ID, and on a hit copy version, cipher_suite and
master_secret into the caller's parameters and move the entry to the
list head.  Result components: found flag, updated cache, updated
parameters. -/
def lru_load (hmac : Hmac) (cc : Cache) (params : SessionParams) :
    Nat × Cache × SessionParams :=
  if cc.init_done = false then (0, cc, params) else
  let id := mask_id hmac cc params.session_id
  let x := (find_node cc id).1
  if x ≠ ADDR_NULL then
    let params := { params with
      version := dec16be cc.store (x + VERSION_OFF),
      cipher_suite := dec16be cc.store (x + CIPHER_SUITE_OFF),
      master_secret := readBytes cc.store (x + MASTER_SECRET_OFF) MASTER_SECRET_LEN }
    (1, lru_tohead cc x, params)
  else (0, cc, params)

/- ===== br_ssl_session_cache_lru_init ===== -/

/-- br_ssl_session_cache_lru_init: set up the cache over the given slab.
key0 and hash0 stand for the (uninitialised) previous contents of the
index_key and hash fields, which the C function does not write. -/
def br_ssl_session_cache_lru_init (store : Nat → Nat) (store_len : Nat)
    (key0 : List Nat) (hash0 : Nat) : Cache :=
  { store := store, store_len := store_len, store_ptr := 0,
    index_key := key0, hash := hash0, init_done := false,
    head := ADDR_NULL, tail := ADDR_NULL, root := ADDR_NULL }

/- ===== Error constants from inc/bearssl_ssl.h ===== -/

def BR_ERR_OK : Nat := 0
def BR_ERR_BAD_PARAM : Nat := 1
def BR_ERR_BAD_STATE : Nat := 2
def BR_ERR_UNSUPPORTED_VERSION : Nat := 3
def BR_ERR_BAD_VERSION : Nat := 4
def BR_ERR_BAD_LENGTH : Nat := 5
def BR_ERR_TOO_LARGE : Nat := 6
def BR_ERR_BAD_MAC : Nat := 7
def BR_ERR_NO_RANDOM : Nat := 8
def BR_ERR_UNKNOWN_TYPE : Nat := 9
def BR_ERR_UNEXPECTED : Nat := 10
def BR_ERR_BAD_CCS : Nat := 12
def BR_ERR_BAD_ALERT : Nat := 13
def BR_ERR_BAD_HANDSHAKE : Nat := 14
def BR_ERR_OVERSIZED_ID : Nat := 15
def BR_ERR_BAD_CIPHER_SUITE : Nat := 16
def BR_ERR_BAD_COMPRESSION : Nat := 17
def BR_ERR_BAD_FRAGLEN : Nat := 18
def BR_ERR_BAD_SECRENEG : Nat := 19
def BR_ERR_EXTRA_EXTENSION : Nat := 20
def BR_ERR_BAD_SNI : Nat := 21
def BR_ERR_BAD_HELLO_DONE : Nat := 22
def BR_ERR_LIMIT_EXCEEDED : Nat := 23
def BR_ERR_BAD_FINISHED : Nat := 24
def BR_ERR_RESUME_MISMATCH : Nat := 25
def BR_ERR_INVALID_ALGORITHM : Nat := 26
def BR_ERR_BAD_SIGNATURE : Nat := 27
def BR_ERR_IO : Nat := 31
def BR_ERR_RECV_FATAL_ALERT : Nat := 256
def BR_ERR_SEND_FATAL_ALERT : Nat := 512

/-- Every BR_ERR_ value defined in inc/bearssl_ssl.h, in order of
definition. -/
def br_err_values : List Nat :=
  [ BR_ERR_OK, BR_ERR_BAD_PARAM, BR_ERR_BAD_STATE, BR_ERR_UNSUPPORTED_VERSION,
    BR_ERR_BAD_VERSION, BR_ERR_BAD_LENGTH, BR_ERR_TOO_LARGE, BR_ERR_BAD_MAC,
    BR_ERR_NO_RANDOM, BR_ERR_UNKNOWN_TYPE, BR_ERR_UNEXPECTED, BR_ERR_BAD_CCS,
    BR_ERR_BAD_ALERT, BR_ERR_BAD_HANDSHAKE, BR_ERR_OVERSIZED_ID,
    BR_ERR_BAD_CIPHER_SUITE, BR_ERR_BAD_COMPRESSION, BR_ERR_BAD_FRAGLEN,
    BR_ERR_BAD_SECRENEG, BR_ERR_EXTRA_EXTENSION, BR_ERR_BAD_SNI,
    BR_ERR_BAD_HELLO_DONE, BR_ERR_LIMIT_EXCEEDED, BR_ERR_BAD_FINISHED,
    BR_ERR_RESUME_MISMATCH, BR_ERR_INVALID_ALGORITHM, BR_ERR_BAD_SIGNATURE,
    BR_ERR_IO, BR_ERR_RECV_FATAL_ALERT, BR_ERR_SEND_FATAL_ALERT ]

/- ===== Concrete scenario: four saves into a three-entry slab ===== -/

/-- A concrete Hmac instantiation used for the executable scenarios: the
digest is the message itself (so the masked ID equals the raw ID). -/
def hmacId : Hmac := fun _ _ m => m

/-- A concrete DRBG output function for the executable scenarios. -/
def drbg0 : Nat → List Nat := fun _ => List.range 32

/-- A concrete server context for the executable scenarios. -/
def srv0 : ServerCtx := { rng := 0, rngHash := 5 }

/-- An all-zero initial slab. -/
def store0 : Nat → Nat := fun _ => 0

def idA : List Nat := List.replicate 32 10
def idB : List Nat := List.replicate 32 30
def idC : List Nat := List.replicate 32 20
def idD : List Nat := List.replicate 32 40

def pA : SessionParams :=
  { session_id := idA, session_id_len := 32, version := 769,
    cipher_suite := 61, master_secret := List.replicate 48 1 }
def pB : SessionParams :=
  { session_id := idB, session_id_len := 32, version := 770,
    cipher_suite := 62, master_secret := List.replicate 48 2 }
def pC : SessionParams :=
  { session_id := idC, session_id_len := 32, version := 771,
    cipher_suite := 63, master_secret := List.replicate 48 3 }
def pD : SessionParams :=
  { session_id := idD, session_id_len := 32, version := 772,
    cipher_suite := 64, master_secret := List.replicate 48 4 }

/-- A fresh cache over a slab of 300 bytes (capacity: three entries). -/
def cc0 : Cache := br_ssl_session_cache_lru_init store0 300 [] 0

def sv1 : Cache × ServerCtx := lru_save hmacId drbg0 cc0 srv0 pA
def sv2 : Cache × ServerCtx := lru_save hmacId drbg0 sv1.1 sv1.2 pB
def sv3 : Cache × ServerCtx := lru_save hmacId drbg0 sv2.1 sv2.2 pC
def sv4 : Cache × ServerCtx := lru_save hmacId drbg0 sv3.1 sv3.2 pD

/-- Cache state after saving sessions A, B, C (filling the slab). -/
def cc3 : Cache := sv3.1

/-- Cache state after the fourth save, which evicts the list tail (A). -/
def cc4 : Cache := sv4.1

/- ===== Invariant vocabulary ===== -/

/-- Head of an address list, with default terminator q. -/
def headT (q : Nat) : List Nat → Nat
  | [] => q
  | a :: _ => a

/-- Last element of an address list, with default p. -/
def lastT (p : Nat) : List Nat → Nat
  | [] => p
  | a :: t => lastT a t

/-- An address designates an allocated entry: a multiple of the entry
size lying strictly below the allocation pointer. -/
def Allocated (cc : Cache) (a : Nat) : Prop :=
  a % LRU_ENTRY_LEN = 0 ∧ a + LRU_ENTRY_LEN ≤ cc.store_ptr

/-- A link value is valid: the null address or an allocated entry. -/
def validA (cc : Cache) (v : Nat) : Prop :=
  v = ADDR_NULL ∨ Allocated cc v

/-- The shape of a link-slot address as computed by the tree walks: the
null address (meaning the root pointer) or the left/right field of an
allocated entry. -/
def linkish (cc : Cache) (y : Nat) : Prop :=
  y = ADDR_NULL ∨ ∃ v, Allocated cc v ∧ (y = v + TREE_LEFT_OFF ∨ y = v + TREE_RIGHT_OFF)

/-- The next fields thread the list L, ending at terminator q. -/
def chainN (cc : Cache) : List Nat → Nat → Prop
  | [], _ => True
  | a :: l, q => get_next cc a = headT q l ∧ chainN cc l q

/-- The prev fields thread the list L, starting from p. -/
def chainP (cc : Cache) : Nat → List Nat → Prop
  | _, [] => True
  | p, a :: l => get_prev cc a = p ∧ chainP cc a l

/-- L is the LRU list of the cache: head and tail match its ends and the
prev/next fields thread it. -/
def listOK (cc : Cache) (L : List Nat) : Prop :=
  cc.head = headT ADDR_NULL L ∧ cc.tail = lastT ADDR_NULL L ∧
  chainN cc L ADDR_NULL ∧ chainP cc ADDR_NULL L

/-- The inductive state invariant of the cache: the slab is within the
documented size limit, the allocation pointer is entry-aligned and
bounded, the root and the tree fields of every allocated entry are
valid links, and the doubly-linked list enumerates exactly the allocated
entries. -/
structure CacheInv (cc : Cache) : Prop where
  len_le : cc.store_len ≤ 4294967295
  ptr_mod : cc.store_ptr % LRU_ENTRY_LEN = 0
  ptr_le : cc.store_ptr ≤ cc.store_len
  root_ok : validA cc cc.root
  links_ok : ∀ a, Allocated cc a → validA cc (get_left cc a) ∧ validA cc (get_right cc a)
  lru : ∃ L, L.Nodup ∧ (∀ a, a ∈ L ↔ Allocated cc a) ∧ listOK cc L

/-- The allocation invariant exactly as claimed: alignment and bound of
store_ptr, and validity of head, tail, root and of the four link fields
of every allocated entry. -/
def ClaimedInv (cc : Cache) : Prop :=
  cc.store_ptr % LRU_ENTRY_LEN = 0 ∧ cc.store_ptr ≤ cc.store_len ∧
  validA cc cc.head ∧ validA cc cc.tail ∧ validA cc cc.root ∧
  ∀ a, Allocated cc a →
    validA cc (get_prev cc a) ∧ validA cc (get_next cc a) ∧
    validA cc (get_left cc a) ∧ validA cc (get_right cc a)

/- ===================================================================
   Theorems
   =================================================================== -/

set_option maxRecDepth 10000

/- ===== Scalar fields untouched by surgery steps ===== -/

theorem set_link_scalars (cc : Cache) (alx x : Nat) :
    (set_link cc alx x).store_len = cc.store_len ∧
    (set_link cc alx x).store_ptr = cc.store_ptr ∧
    (set_link cc alx x).index_key = cc.index_key ∧
    (set_link cc alx x).hash = cc.hash ∧
    (set_link cc alx x).init_done = cc.init_done ∧
    (set_link cc alx x).head = cc.head ∧
    (set_link cc alx x).tail = cc.tail := by
  unfold set_link
  split <;> exact ⟨rfl, rfl, rfl, rfl, rfl, rfl, rfl⟩

theorem remove_node_scalars (cc : Cache) (x : Nat) :
    (remove_node cc x).store_len = cc.store_len ∧
    (remove_node cc x).store_ptr = cc.store_ptr ∧
    (remove_node cc x).index_key = cc.index_key ∧
    (remove_node cc x).hash = cc.hash ∧
    (remove_node cc x).init_done = cc.init_done ∧
    (remove_node cc x).head = cc.head ∧
    (remove_node cc x).tail = cc.tail := by
  unfold remove_node set_link
  simp only []
  split <;> split <;> exact ⟨rfl, rfl, rfl, rfl, rfl, rfl, rfl⟩

theorem lru_insert_scalars (cc : Cache) (x : Nat) (id : List Nat) (params : SessionParams) :
    (lru_insert cc x id params).store_len = cc.store_len ∧
    (lru_insert cc x id params).store_ptr = cc.store_ptr ∧
    (lru_insert cc x id params).index_key = cc.index_key ∧
    (lru_insert cc x id params).hash = cc.hash ∧
    (lru_insert cc x id params).init_done = cc.init_done ∧
    (lru_insert cc x id params).head = x := by
  unfold lru_insert lru_insert_link set_link set_left set_right set_prev set_next
  simp only []
  split <;> split <;> simp

theorem lru_evict_tail_scalars (cc : Cache) :
    (lru_evict_tail cc).1.store_len = cc.store_len ∧
    (lru_evict_tail cc).1.store_ptr = cc.store_ptr ∧
    (lru_evict_tail cc).1.index_key = cc.index_key ∧
    (lru_evict_tail cc).1.hash = cc.hash ∧
    (lru_evict_tail cc).1.init_done = cc.init_done ∧
    (lru_evict_tail cc).2 = cc.tail := by
  unfold lru_evict_tail remove_node set_link set_next
  simp only []
  split <;> split <;> split <;> simp

theorem lru_tohead_scalars (cc : Cache) (x : Nat) :
    (lru_tohead cc x).store_len = cc.store_len ∧
    (lru_tohead cc x).store_ptr = cc.store_ptr ∧
    (lru_tohead cc x).index_key = cc.index_key ∧
    (lru_tohead cc x).hash = cc.hash ∧
    (lru_tohead cc x).init_done = cc.init_done ∧
    (lru_tohead cc x).root = cc.root := by
  unfold lru_tohead set_prev set_next
  simp only []
  split <;> try split
  all_goals simp

/-- After the slab-size guard, the key fields of the result of lru_save
are those produced by the key-initialisation step, and the server
context is the one it returns. -/
theorem lru_save_keyfields (hmac : Hmac) (drbg : Nat → List Nat) (cc : Cache)
    (srv : ServerCtx) (params : SessionParams) (h : ¬ cc.store_len < LRU_ENTRY_LEN) :
    (lru_save hmac drbg cc srv params).1.index_key = (save_key_init drbg cc srv).1.index_key ∧
    (lru_save hmac drbg cc srv params).1.hash = (save_key_init drbg cc srv).1.hash ∧
    (lru_save hmac drbg cc srv params).1.init_done = (save_key_init drbg cc srv).1.init_done ∧
    (lru_save hmac drbg cc srv params).2 = (save_key_init drbg cc srv).2 := by
  unfold lru_save
  rw [if_neg h]
  simp only []
  split
  · exact ⟨rfl, rfl, rfl, rfl⟩
  · split
    · simp [lru_insert_scalars, lru_evict_tail_scalars]
    · simp [lru_insert_scalars]

/-- The cache returned by lru_load has the same index_key, hash and
init_done fields as the input cache. -/
theorem lru_load_keyfields (hmac : Hmac) (cc : Cache) (params : SessionParams) :
    (lru_load hmac cc params).2.1.index_key = cc.index_key ∧
    (lru_load hmac cc params).2.1.hash = cc.hash ∧
    (lru_load hmac cc params).2.1.init_done = cc.init_done := by
  unfold lru_load
  simp only []
  split
  · exact ⟨rfl, rfl, rfl⟩
  · split
    · simp [lru_tohead_scalars]
    · exact ⟨rfl, rfl, rfl⟩

/- ===== Claim C6 ===== -/

/-- Claim C6: on the first save ever performed on a cache instance (and
only then), the 32-byte index_key is drawn from the server engine's DRBG
(stepping its state once) and the DRBG's hash function is snapshotted
into the cache; every later save and load reuses that same key and hash
without drawing from the DRBG again; a first save dropped by the
slab-size guard does not initialise or draw either. -/
theorem c6_first_save_key_init (hmac : Hmac) (drbg : Nat → List Nat) (cc : Cache)
    (srv : ServerCtx) (params : SessionParams) :
    (cc.init_done = true → ¬ cc.store_len < LRU_ENTRY_LEN →
      (lru_save hmac drbg cc srv params).1.index_key = cc.index_key ∧
      (lru_save hmac drbg cc srv params).1.hash = cc.hash ∧
      (lru_save hmac drbg cc srv params).1.init_done = true ∧
      (lru_save hmac drbg cc srv params).2 = srv) ∧
    (cc.init_done = false → ¬ cc.store_len < LRU_ENTRY_LEN →
      (lru_save hmac drbg cc srv params).1.index_key = drbg srv.rng ∧
      (lru_save hmac drbg cc srv params).1.hash = srv.rngHash ∧
      (lru_save hmac drbg cc srv params).1.init_done = true ∧
      (lru_save hmac drbg cc srv params).2.rng = srv.rng + 1 ∧
      (lru_save hmac drbg cc srv params).2.rngHash = srv.rngHash) ∧
    (cc.store_len < LRU_ENTRY_LEN →
      lru_save hmac drbg cc srv params = (cc, srv)) ∧
    ((lru_load hmac cc params).2.1.index_key = cc.index_key ∧
     (lru_load hmac cc params).2.1.hash = cc.hash ∧
     (lru_load hmac cc params).2.1.init_done = cc.init_done) := by
  refine ⟨?_, ?_, ?_, lru_load_keyfields hmac cc params⟩
  · intro hd hl
    obtain ⟨k1, k2, k3, k4⟩ := lru_save_keyfields hmac drbg cc srv params hl
    rw [k1, k2, k3, k4]
    unfold save_key_init
    simp [hd]
  · intro hd hl
    obtain ⟨k1, k2, k3, k4⟩ := lru_save_keyfields hmac drbg cc srv params hl
    rw [k1, k2, k3, k4]
    unfold save_key_init
    simp [hd]
  · intro hl
    unfold lru_save
    rw [if_pos hl]

/-- Witness for c6_first_save_key_init: a first save on the concrete
empty cache draws the index key from the DRBG and steps it once. -/
theorem c6_witness :
    cc0.init_done = false ∧ ¬ cc0.store_len < LRU_ENTRY_LEN ∧
    ((lru_save hmacId drbg0 cc0 srv0 pA).1.index_key = drbg0 srv0.rng ∧
     (lru_save hmacId drbg0 cc0 srv0 pA).1.hash = srv0.rngHash ∧
     (lru_save hmacId drbg0 cc0 srv0 pA).1.init_done = true ∧
     (lru_save hmacId drbg0 cc0 srv0 pA).2.rng = srv0.rng + 1 ∧
     (lru_save hmacId drbg0 cc0 srv0 pA).2.rngHash = srv0.rngHash) :=
  ⟨rfl, by decide,
   (c6_first_save_key_init hmacId drbg0 cc0 srv0 pA).2.1 rfl (by decide)⟩

/- ===== Claim C8 ===== -/

/-- Claim C8: the engine's error constants have exactly the listed
small-integer values, the received-alert base is 256 and the sent-alert
base is 512, and no error constant is defined for value 11. -/
theorem c8_error_taxonomy :
    BR_ERR_OK = 0 ∧ BR_ERR_BAD_PARAM = 1 ∧ BR_ERR_BAD_STATE = 2 ∧
    BR_ERR_UNSUPPORTED_VERSION = 3 ∧ BR_ERR_BAD_VERSION = 4 ∧
    BR_ERR_BAD_LENGTH = 5 ∧ BR_ERR_TOO_LARGE = 6 ∧ BR_ERR_BAD_MAC = 7 ∧
    BR_ERR_NO_RANDOM = 8 ∧ BR_ERR_UNKNOWN_TYPE = 9 ∧ BR_ERR_UNEXPECTED = 10 ∧
    BR_ERR_BAD_CCS = 12 ∧ BR_ERR_BAD_ALERT = 13 ∧ BR_ERR_BAD_HANDSHAKE = 14 ∧
    BR_ERR_OVERSIZED_ID = 15 ∧ BR_ERR_BAD_CIPHER_SUITE = 16 ∧
    BR_ERR_BAD_COMPRESSION = 17 ∧ BR_ERR_BAD_FRAGLEN = 18 ∧
    BR_ERR_BAD_SECRENEG = 19 ∧ BR_ERR_EXTRA_EXTENSION = 20 ∧
    BR_ERR_BAD_SNI = 21 ∧ BR_ERR_BAD_HELLO_DONE = 22 ∧
    BR_ERR_LIMIT_EXCEEDED = 23 ∧ BR_ERR_BAD_FINISHED = 24 ∧
    BR_ERR_RESUME_MISMATCH = 25 ∧ BR_ERR_INVALID_ALGORITHM = 26 ∧
    BR_ERR_BAD_SIGNATURE = 27 ∧ BR_ERR_IO = 31 ∧
    BR_ERR_RECV_FATAL_ALERT = 256 ∧ BR_ERR_SEND_FATAL_ALERT = 512 ∧
    11 ∉ br_err_values := by
  decide

/- ===== Claim C9 ===== -/

/-- Claim C9: on a cache whose index key was never initialised
(init_done is 0), lru_load returns 0 without modifying the cache (in
particular the store) or the caller's session-parameters structure. -/
theorem c9_load_uninitialised (hmac : Hmac) (cc : Cache) (params : SessionParams)
    (h : cc.init_done = false) :
    lru_load hmac cc params = (0, cc, params) := by
  unfold lru_load
  rw [h]
  simp

/-- Witness for c9_load_uninitialised on the concrete fresh cache. -/
theorem c9_witness :
    cc0.init_done = false ∧ lru_load hmacId cc0 pA = (0, cc0, pA) :=
  ⟨rfl, c9_load_uninitialised hmacId cc0 pA rfl⟩

/- ===== Claims C1, C2, C3 (code bug) ===== -/

/-- Claim C1 fails on the code: in a slab of capacity three, sessions A,
B, C, D are saved in that order with pairwise distinct (masked) IDs.
The fourth save evicts the list tail A (address 0), but the faulty
remove_node loses B (address 100) from the search tree, so although B
was saved, was loadable before, was never evicted (it still sits in the
LRU list, with its session data intact), the subsequent load of B's ID
returns 0 instead of 1. -/
theorem c1_roundtrip_lost_session :
    (lru_load hmacId cc3 pB).1 = 1 ∧
    cc3.tail = 0 ∧
    readBytes cc3.store (0 + SESSION_ID_OFF) SESSION_ID_LEN = idA ∧
    cc4.tail = 100 ∧
    readBytes cc4.store (100 + SESSION_ID_OFF) SESSION_ID_LEN = idB ∧
    readBytes cc4.store (100 + MASTER_SECRET_OFF) MASTER_SECRET_LEN = pB.master_secret ∧
    (lru_load hmacId cc4 pB).1 = 0 := by
  decide

/-- Claim C2 fails on the code: evicting the tail A (address 0, the tree
root with right-descendants B and C) removes more than A from the tree.
Before the fourth save, B and C are both reachable from the root; after
it, the non-evicted entry B (still the list tail) is no longer reachable
from the tree root, because remove_node does not reattach the children
of the removed node to the replacement node. -/
theorem c2_eviction_unreachable_entry :
    cc3.tail = 0 ∧
    readBytes cc3.store (0 + SESSION_ID_OFF) SESSION_ID_LEN = idA ∧
    (find_node cc3 idB).1 = 100 ∧
    (find_node cc3 idC).1 = 200 ∧
    (find_node cc4 idA).1 = ADDR_NULL ∧
    (find_node cc4 idC).1 = 200 ∧
    (find_node cc4 idD).1 = 0 ∧
    cc4.tail = 100 ∧
    (find_node cc4 idB).1 = ADDR_NULL := by
  decide

/-- Claim C3 fails on the code: after N+k = 4 distinct saves into a
capacity N = 3 slab, the k = 1 least-recently-used session A is indeed
absent, but of the other three sessions only C and D can be loaded; B
(more recent than the evicted A) is absent as well, because the eviction
corrupted the search tree. -/
theorem c3_lru_eviction_order_violated :
    (lru_load hmacId cc4 pA).1 = 0 ∧
    (lru_load hmacId cc4 pC).1 = 1 ∧
    (lru_load hmacId cc4 pD).1 = 1 ∧
    (lru_load hmacId cc4 pB).1 = 0 := by
  decide

/- ===== Byte-level frame and round-trip lemmas ===== -/

theorem enc32be_outside (s : Nat → Nat) (o v i : Nat) (h : i < o ∨ o + 4 ≤ i) :
    enc32be s o v i = s i := by
  have h1 : ¬ i = o := by omega
  have h2 : ¬ i = o + 1 := by omega
  have h3 : ¬ i = o + 2 := by omega
  have h4 : ¬ i = o + 3 := by omega
  simp [enc32be, h1, h2, h3, h4]

theorem enc16be_outside (s : Nat → Nat) (o v i : Nat) (h : i < o ∨ o + 2 ≤ i) :
    enc16be s o v i = s i := by
  have h1 : ¬ i = o := by omega
  have h2 : ¬ i = o + 1 := by omega
  simp [enc16be, h1, h2]

theorem writeBytes_outside (s : Nat → Nat) (o : Nat) (l : List Nat) (i : Nat)
    (h : i < o ∨ o + l.length ≤ i) : writeBytes s o l i = s i := by
  have h1 : ¬ (o ≤ i ∧ i - o < l.length) := by omega
  simp [writeBytes, h1]

theorem writeBytes_inside (s : Nat → Nat) (o : Nat) (l : List Nat) (k : Nat)
    (h : k < l.length) : writeBytes s o l (o + k) = l.getD k 0 := by
  have h1 : o ≤ o + k ∧ o + k - o < l.length := by omega
  have e : o + k - o = k := by omega
  unfold writeBytes
  rw [if_pos h1, e]

theorem enc32be_at0 (s : Nat → Nat) (o v : Nat) : enc32be s o v o = v / 16777216 % 256 := by
  simp [enc32be]

theorem enc32be_at1 (s : Nat → Nat) (o v : Nat) : enc32be s o v (o + 1) = v / 65536 % 256 := by
  have h1 : ¬ o + 1 = o := by omega
  simp [enc32be, h1]

theorem enc32be_at2 (s : Nat → Nat) (o v : Nat) : enc32be s o v (o + 2) = v / 256 % 256 := by
  have h1 : ¬ o + 2 = o := by omega
  have h2 : ¬ o + 2 = o + 1 := by omega
  simp [enc32be, h1, h2]

theorem enc32be_at3 (s : Nat → Nat) (o v : Nat) : enc32be s o v (o + 3) = v % 256 := by
  have h1 : ¬ o + 3 = o := by omega
  have h2 : ¬ o + 3 = o + 1 := by omega
  have h3 : ¬ o + 3 = o + 2 := by omega
  simp [enc32be, h1, h2, h3]

theorem enc16be_at0 (s : Nat → Nat) (o v : Nat) : enc16be s o v o = v / 256 % 256 := by
  simp [enc16be]

theorem enc16be_at1 (s : Nat → Nat) (o v : Nat) : enc16be s o v (o + 1) = v % 256 := by
  have h1 : ¬ o + 1 = o := by omega
  simp [enc16be, h1]

theorem dec32be_enc32be (s : Nat → Nat) (o v : Nat) (hv : v < 4294967296) :
    dec32be (enc32be s o v) o = v := by
  unfold dec32be
  rw [enc32be_at0, enc32be_at1, enc32be_at2, enc32be_at3]
  omega

theorem dec16be_enc16be (s : Nat → Nat) (o v : Nat) :
    dec16be (enc16be s o v) o = v % 65536 := by
  unfold dec16be
  rw [enc16be_at0, enc16be_at1]
  omega

theorem dec32be_congr (s s' : Nat → Nat) (o : Nat)
    (h : ∀ i, o ≤ i → i < o + 4 → s' i = s i) : dec32be s' o = dec32be s o := by
  unfold dec32be
  rw [h o (by omega) (by omega), h (o + 1) (by omega) (by omega),
      h (o + 2) (by omega) (by omega), h (o + 3) (by omega) (by omega)]

theorem dec16be_congr (s s' : Nat → Nat) (o : Nat)
    (h : ∀ i, o ≤ i → i < o + 2 → s' i = s i) : dec16be s' o = dec16be s o := by
  unfold dec16be
  rw [h o (by omega) (by omega), h (o + 1) (by omega) (by omega)]

theorem readBytes_congr (s s' : Nat → Nat) (o n : Nat)
    (h : ∀ i, o ≤ i → i < o + n → s' i = s i) :
    readBytes s' o n = readBytes s o n := by
  induction n generalizing o with
  | zero => rfl
  | succ n ih =>
    unfold readBytes
    rw [h o (by omega) (by omega), ih (o + 1) (fun i h1 h2 => h i (by omega) (by omega))]

theorem readBytes_length (s : Nat → Nat) (o n : Nat) : (readBytes s o n).length = n := by
  induction n generalizing o with
  | zero => rfl
  | succ n ih => unfold readBytes; simp [ih]

theorem readBytes_eq_list (s : Nat → Nat) (o : Nat) (l : List Nat)
    (h : ∀ k, k < l.length → s (o + k) = l.getD k 0) :
    readBytes s o l.length = l := by
  induction l generalizing o with
  | nil => rfl
  | cons b t ih =>
    show s o :: readBytes s (o + 1) t.length = b :: t
    have hb : s o = b := by
      have := h 0 (by simp)
      simpa using this
    rw [hb, ih (o + 1) (fun k hk => by
      have hx := h (k + 1) (by simp only [List.length_cons]; omega)
      have e2 : o + 1 + k = o + (k + 1) := by omega
      rw [e2, hx]
      rfl)]

theorem readBytes_writeBytes (s : Nat → Nat) (o : Nat) (l : List Nat) :
    readBytes (writeBytes s o l) o l.length = l :=
  readBytes_eq_list _ _ _ (fun k hk => writeBytes_inside s o l k hk)

theorem entry_regions_disjoint (a b o1 n1 o2 n2 : Nat) (ha : a % 100 = 0)
    (hb : b % 100 = 0) (hab : a ≠ b) (h1 : o1 + n1 ≤ 100) (h2 : o2 + n2 ≤ 100) :
    a + o1 + n1 ≤ b + o2 ∨ b + o2 + n2 ≤ a + o1 := by
  omega

/- ===== cmpBytes: three-way lexicographic comparison ===== -/

theorem cmpBytes_eq_iff (a b : List Nat) : cmpBytes a b = Ordering.eq ↔ a = b := by
  induction a generalizing b with
  | nil => cases b <;> simp [cmpBytes]
  | cons x xs ih =>
    cases b with
    | nil => simp [cmpBytes]
    | cons y ys =>
      unfold cmpBytes
      by_cases h1 : x < y
      · simp [h1]
        omega
      · by_cases h2 : y < x
        · simp [h1, h2]
          omega
        · have hxy : x = y := by omega
          simp [h1, h2, hxy, ih]

theorem cmpBytes_lt_iff (a b : List Nat) :
    cmpBytes a b = Ordering.lt ↔ List.Lex (· < ·) a b := by
  induction a generalizing b with
  | nil =>
    cases b with
    | nil => simp [cmpBytes]
    | cons y ys => simp [cmpBytes]; exact List.Lex.nil
  | cons x xs ih =>
    cases b with
    | nil =>
      simp [cmpBytes]
    | cons y ys =>
      unfold cmpBytes
      by_cases h1 : x < y
      · simp [h1]
        exact List.Lex.rel h1
      · by_cases h2 : y < x
        · simp [h1, h2]
          intro h
          cases h with
          | rel hr => omega
          | cons hc => omega
        · have hxy : x = y := by omega
          subst hxy
          simp [h1, h2, ih]
          constructor
          · exact fun h => List.Lex.cons h
          · intro h
            cases h with
            | rel hr => omega
            | cons hc => exact hc

/- ===== mask_id characterisation ===== -/

theorem mask_id_spec (hmac : Hmac) (cc : Cache) (src : List Nat)
    (h : src.length = SESSION_ID_LEN) :
    mask_id hmac cc src =
      (hmac cc.hash cc.index_key src).take SESSION_ID_LEN ++
        src.drop (min SESSION_ID_LEN (hmac cc.hash cc.index_key src).length) := by
  unfold mask_id
  rw [List.take_of_length_le (le_of_eq h)]
  simp only [List.length_take]

theorem mask_id_length (hmac : Hmac) (cc : Cache) (src : List Nat)
    (h : src.length = SESSION_ID_LEN) :
    (mask_id hmac cc src).length = SESSION_ID_LEN := by
  unfold mask_id
  rw [List.take_of_length_le (le_of_eq h)]
  simp only [List.length_append, List.length_take, List.length_drop, h]
  have hs : SESSION_ID_LEN = 32 := rfl
  omega

theorem mask_id_trunc (hmac : Hmac) (cc : Cache) (src : List Nat)
    (h : src.length = SESSION_ID_LEN)
    (hr : SESSION_ID_LEN ≤ (hmac cc.hash cc.index_key src).length) :
    mask_id hmac cc src = (hmac cc.hash cc.index_key src).take SESSION_ID_LEN := by
  rw [mask_id_spec hmac cc src h, min_eq_left hr,
    List.drop_eq_nil_of_le (le_of_eq h), List.append_nil]

/- ===== Data bytes written by the insertion step ===== -/

theorem lru_insert_store (cc : Cache) (x : Nat) (id : List Nat) (params : SessionParams) :
    (lru_insert cc x id params).store =
      enc16be (enc16be (writeBytes (writeBytes (lru_insert_link cc x id).store
        (x + SESSION_ID_OFF) (id.take SESSION_ID_LEN))
        (x + MASTER_SECRET_OFF) (params.master_secret.take MASTER_SECRET_LEN))
        (x + VERSION_OFF) params.version) (x + CIPHER_SUITE_OFF) params.cipher_suite := rfl

theorem lru_insert_data (cc : Cache) (x : Nat) (id : List Nat) (params : SessionParams) :
    (id.length = SESSION_ID_LEN →
      readBytes (lru_insert cc x id params).store (x + SESSION_ID_OFF) SESSION_ID_LEN = id) ∧
    (params.master_secret.length = MASTER_SECRET_LEN →
      readBytes (lru_insert cc x id params).store (x + MASTER_SECRET_OFF) MASTER_SECRET_LEN =
        params.master_secret) ∧
    dec16be (lru_insert cc x id params).store (x + VERSION_OFF) = params.version % 65536 ∧
    dec16be (lru_insert cc x id params).store (x + CIPHER_SUITE_OFF) =
      params.cipher_suite % 65536 ∧
    (lru_insert cc x id params).store (x + VERSION_OFF) = params.version / 256 % 256 ∧
    (lru_insert cc x id params).store (x + VERSION_OFF + 1) = params.version % 256 ∧
    (lru_insert cc x id params).store (x + CIPHER_SUITE_OFF) =
      params.cipher_suite / 256 % 256 ∧
    (lru_insert cc x id params).store (x + CIPHER_SUITE_OFF + 1) =
      params.cipher_suite % 256 := by
  rw [lru_insert_store]
  simp only [SESSION_ID_OFF, MASTER_SECRET_OFF, VERSION_OFF, CIPHER_SUITE_OFF,
    SESSION_ID_LEN, MASTER_SECRET_LEN]
  refine ⟨?_, ?_, ?_, ?_, ?_, ?_, ?_, ?_⟩
  · intro hid
    rw [readBytes_congr _ _ _ _ (fun i h1 h2 => by
      rw [enc16be_outside _ _ _ _ (by omega), enc16be_outside _ _ _ _ (by omega),
        writeBytes_outside _ _ _ _ (by rw [List.length_take]; omega)])]
    have hl : (id.take 32).length = 32 := by rw [List.length_take]; omega
    have := readBytes_writeBytes (lru_insert_link cc x id).store (x + 0) (id.take 32)
    rw [hl] at this
    rw [this, List.take_of_length_le (le_of_eq hid)]
  · intro hms
    rw [readBytes_congr _ _ _ _ (fun i h1 h2 => by
      rw [enc16be_outside _ _ _ _ (by omega), enc16be_outside _ _ _ _ (by omega)])]
    have hl : (params.master_secret.take 48).length = 48 := by rw [List.length_take]; omega
    have := readBytes_writeBytes
      (writeBytes (lru_insert_link cc x id).store (x + 0) (id.take 32))
      (x + 32) (params.master_secret.take 48)
    rw [hl] at this
    rw [this, List.take_of_length_le (le_of_eq hms)]
  · rw [dec16be_congr _ _ _ (fun i h1 h2 => by
      rw [enc16be_outside _ _ _ _ (by omega)])]
    exact dec16be_enc16be _ _ _
  · exact dec16be_enc16be _ _ _
  · rw [enc16be_outside _ _ _ _ (by omega)]
    exact enc16be_at0 _ _ _
  · rw [enc16be_outside _ _ _ _ (by omega)]
    exact enc16be_at1 _ _ _
  · exact enc16be_at0 _ _ _
  · exact enc16be_at1 _ _ _

/- ===== Shape of lru_save in the insert case ===== -/

theorem lru_save_shape (hmac : Hmac) (drbg : Nat → List Nat) (cc : Cache) (srv : ServerCtx)
    (params : SessionParams) (hlen : ¬ cc.store_len < LRU_ENTRY_LEN)
    (hcol : (find_node (save_key_init drbg cc srv).1
      (mask_id hmac (save_key_init drbg cc srv).1 params.session_id)).1 = ADDR_NULL) :
    lru_save hmac drbg cc srv params =
      (lru_insert
        (if (save_key_init drbg cc srv).1.store_ptr >
            (save_key_init drbg cc srv).1.store_len - LRU_ENTRY_LEN
         then lru_evict_tail (save_key_init drbg cc srv).1
         else ({ (save_key_init drbg cc srv).1 with
                  store_ptr := (save_key_init drbg cc srv).1.store_ptr + LRU_ENTRY_LEN },
               (save_key_init drbg cc srv).1.store_ptr)).1
        (if (save_key_init drbg cc srv).1.store_ptr >
            (save_key_init drbg cc srv).1.store_len - LRU_ENTRY_LEN
         then lru_evict_tail (save_key_init drbg cc srv).1
         else ({ (save_key_init drbg cc srv).1 with
                  store_ptr := (save_key_init drbg cc srv).1.store_ptr + LRU_ENTRY_LEN },
               (save_key_init drbg cc srv).1.store_ptr)).2
        (mask_id hmac (save_key_init drbg cc srv).1 params.session_id) params,
       (save_key_init drbg cc srv).2) := by
  unfold lru_save
  rw [if_neg hlen]
  simp only []
  rw [if_neg (by simp [hcol])]

/-- Reading back the key of a freshly inserted entry at the new list
head. -/
theorem lru_insert_key_readback (cc : Cache) (x : Nat) (id : List Nat)
    (params : SessionParams) (hm : id.length = SESSION_ID_LEN) :
    readBytes (lru_insert cc x id params).store
      ((lru_insert cc x id params).head + SESSION_ID_OFF) SESSION_ID_LEN = id := by
  have hh : (lru_insert cc x id params).head = x :=
    (lru_insert_scalars cc x id params).2.2.2.2.2
  rw [hh]
  exact (lru_insert_data cc x id params).1 hm

/- ===== Claim C4 ===== -/

/-- Claim C4: the key under which an entry is stored and looked up is
the 32-byte masked ID: the raw 32-byte session ID with its first bytes
replaced by HMAC(hash, index_key, session_id), truncated to 32 bytes
when the HMAC output is longer, the remaining raw bytes kept when it is
shorter; save writes that masked ID as the key of the new entry, load
hits exactly when the tree search for the masked ID succeeds, and tree
comparisons are three-way lexicographic over byte sequences. -/
theorem c4_masked_id_keying (hmac : Hmac) (drbg : Nat → List Nat) (cc : Cache)
    (srv : ServerCtx) (params : SessionParams) (a b : List Nat)
    (hsid : params.session_id.length = SESSION_ID_LEN) :
    (mask_id hmac cc params.session_id).length = SESSION_ID_LEN ∧
    mask_id hmac cc params.session_id =
      (hmac cc.hash cc.index_key params.session_id).take SESSION_ID_LEN ++
        params.session_id.drop
          (min SESSION_ID_LEN (hmac cc.hash cc.index_key params.session_id).length) ∧
    (SESSION_ID_LEN ≤ (hmac cc.hash cc.index_key params.session_id).length →
      mask_id hmac cc params.session_id =
        (hmac cc.hash cc.index_key params.session_id).take SESSION_ID_LEN) ∧
    (cc.init_done = true →
      ((lru_load hmac cc params).1 = 1 ↔
        (find_node cc (mask_id hmac cc params.session_id)).1 ≠ ADDR_NULL)) ∧
    (¬ cc.store_len < LRU_ENTRY_LEN →
      (find_node (save_key_init drbg cc srv).1
          (mask_id hmac (save_key_init drbg cc srv).1 params.session_id)).1 = ADDR_NULL →
      readBytes (lru_save hmac drbg cc srv params).1.store
          ((lru_save hmac drbg cc srv params).1.head + SESSION_ID_OFF) SESSION_ID_LEN =
        mask_id hmac (save_key_init drbg cc srv).1 params.session_id) ∧
    (cmpBytes a b = Ordering.lt ↔ List.Lex (· < ·) a b) ∧
    (cmpBytes a b = Ordering.eq ↔ a = b) := by
  refine ⟨mask_id_length hmac cc params.session_id hsid,
    mask_id_spec hmac cc params.session_id hsid,
    mask_id_trunc hmac cc params.session_id hsid,
    ?_, ?_, cmpBytes_lt_iff a b, cmpBytes_eq_iff a b⟩
  · intro hd
    unfold lru_load
    rw [hd]
    simp only [Bool.true_eq_false, if_false]
    split
    · simp_all
    · simp_all
  · intro hlen hcol
    rw [lru_save_shape hmac drbg cc srv params hlen hcol]
    exact lru_insert_key_readback _ _ _ params
      (mask_id_length hmac (save_key_init drbg cc srv).1 params.session_id hsid)

/-- Witness for c4_masked_id_keying: concrete cache after three saves,
saving a fourth distinct session. -/
theorem c4_witness :
    pD.session_id.length = SESSION_ID_LEN ∧
    cc3.init_done = true ∧
    ((lru_load hmacId cc3 pD).1 = 1 ↔
      (find_node cc3 (mask_id hmacId cc3 pD.session_id)).1 ≠ ADDR_NULL) ∧
    (cmpBytes idA idB = Ordering.lt ↔ List.Lex (· < ·) idA idB) :=
  ⟨by decide, by decide,
   (c4_masked_id_keying hmacId drbg0 cc3 srv0 pD idA idB (by decide)).2.2.2.1 (by decide),
   (c4_masked_id_keying hmacId drbg0 cc3 srv0 pD idA idB (by decide)).2.2.2.2.2.1⟩

/- ===== Claim C7 ===== -/

/-- Claim C7: each cache entry occupies 100 consecutive slab bytes with
masked-session-id at offset 0 (32 bytes), master-secret at 32 (48
bytes), version at 80 (2 bytes big-endian), cipher-suite at 82 (2 bytes
big-endian), list-prev at 84, list-next at 88, tree-left at 92,
tree-right at 96 (4 bytes big-endian each), links being 32-bit values
with 0xFFFFFFFF as null; the accessors read/write exactly those
offsets, and an inserted entry has its data laid out accordingly. -/
theorem c7_entry_layout (cc : Cache) (x : Nat) (id : List Nat) (params : SessionParams)
    (s : Nat → Nat) (o v : Nat) :
    (LRU_ENTRY_LEN = 100 ∧ SESSION_ID_OFF = 0 ∧ SESSION_ID_LEN = 32 ∧
     MASTER_SECRET_OFF = 32 ∧ MASTER_SECRET_LEN = 48 ∧ VERSION_OFF = 80 ∧
     CIPHER_SUITE_OFF = 82 ∧ LIST_PREV_OFF = 84 ∧ LIST_NEXT_OFF = 88 ∧
     TREE_LEFT_OFF = 92 ∧ TREE_RIGHT_OFF = 96 ∧ ADDR_NULL = 4294967295) ∧
    (get_prev cc x = dec32be cc.store (x + 84) ∧
     get_next cc x = dec32be cc.store (x + 88) ∧
     get_left cc x = dec32be cc.store (x + 92) ∧
     get_right cc x = dec32be cc.store (x + 96)) ∧
    (set_prev cc x v = { cc with store := enc32be cc.store (x + 84) v } ∧
     set_next cc x v = { cc with store := enc32be cc.store (x + 88) v } ∧
     set_left cc x v = { cc with store := enc32be cc.store (x + 92) v } ∧
     set_right cc x v = { cc with store := enc32be cc.store (x + 96) v }) ∧
    (dec32be s o = s o * 16777216 + s (o + 1) * 65536 + s (o + 2) * 256 + s (o + 3) ∧
     dec16be s o = s o * 256 + s (o + 1)) ∧
    ((lru_insert cc x id params).store (x + VERSION_OFF) = params.version / 256 % 256 ∧
     (lru_insert cc x id params).store (x + VERSION_OFF + 1) = params.version % 256 ∧
     (lru_insert cc x id params).store (x + CIPHER_SUITE_OFF) =
       params.cipher_suite / 256 % 256 ∧
     (lru_insert cc x id params).store (x + CIPHER_SUITE_OFF + 1) =
       params.cipher_suite % 256 ∧
     (id.length = SESSION_ID_LEN →
       readBytes (lru_insert cc x id params).store (x + SESSION_ID_OFF) SESSION_ID_LEN = id) ∧
     (params.master_secret.length = MASTER_SECRET_LEN →
       readBytes (lru_insert cc x id params).store (x + MASTER_SECRET_OFF)
         MASTER_SECRET_LEN = params.master_secret)) := by
  obtain ⟨d1, d2, d3, d4, d5, d6, d7, d8⟩ := lru_insert_data cc x id params
  exact ⟨⟨rfl, rfl, rfl, rfl, rfl, rfl, rfl, rfl, rfl, rfl, rfl, rfl⟩,
    ⟨rfl, rfl, rfl, rfl⟩, ⟨rfl, rfl, rfl, rfl⟩, ⟨rfl, rfl⟩,
    d5, d6, d7, d8, d1, d2⟩

/-- Witness for c7_entry_layout: the entry written by the fourth save of
the concrete scenario carries its data at the documented offsets. -/
theorem c7_witness :
    idD.length = SESSION_ID_LEN ∧
    readBytes (lru_insert cc3 0 idD pD).store (0 + SESSION_ID_OFF) SESSION_ID_LEN = idD ∧
    (lru_insert cc3 0 idD pD).store (0 + VERSION_OFF) = pD.version / 256 % 256 :=
  ⟨by decide,
   (c7_entry_layout cc3 0 idD pD store0 0 0).2.2.2.2.2.2.2.2.1 (by decide),
   (c7_entry_layout cc3 0 idD pD store0 0 0).2.2.2.2.1⟩

/- ===== List chain lemmas ===== -/

theorem headT_append (q : Nat) (A B : List Nat) :
    headT q (A ++ B) = headT (headT q B) A := by
  cases A <;> rfl

theorem lastT_append (p : Nat) (A B : List Nat) :
    lastT p (A ++ B) = lastT (lastT p A) B := by
  induction A generalizing p with
  | nil => rfl
  | cons a t ih => exact ih a

theorem lastT_mem (p : Nat) (L : List Nat) : lastT p L = p ∨ lastT p L ∈ L := by
  induction L generalizing p with
  | nil => exact Or.inl rfl
  | cons a t ih =>
    rcases ih a with h | h
    · exact Or.inr (by simp [lastT, h])
    · exact Or.inr (by simp [lastT]; exact Or.inr h)

theorem headT_mem (q : Nat) (L : List Nat) : headT q L = q ∨ headT q L ∈ L := by
  cases L with
  | nil => exact Or.inl rfl
  | cons a t => exact Or.inr (by simp [headT])

theorem chainN_append (cc : Cache) (A B : List Nat) (q : Nat) :
    chainN cc (A ++ B) q ↔ chainN cc A (headT q B) ∧ chainN cc B q := by
  induction A with
  | nil => simp [chainN]
  | cons a t ih =>
    simp only [List.cons_append, List.append_eq, chainN]
    rw [ih, headT_append]
    tauto

theorem chainP_append (cc : Cache) (p : Nat) (A B : List Nat) :
    chainP cc p (A ++ B) ↔ chainP cc p A ∧ chainP cc (lastT p A) B := by
  induction A generalizing p with
  | nil => simp [chainP, lastT]
  | cons a t ih =>
    simp only [List.cons_append, List.append_eq, chainP, lastT]
    rw [ih a]
    tauto

theorem chainN_congr (cc cc' : Cache) (L : List Nat) (q : Nat)
    (h : ∀ a, a ∈ L → get_next cc' a = get_next cc a) :
    chainN cc' L q ↔ chainN cc L q := by
  induction L with
  | nil => simp [chainN]
  | cons a t ih =>
    simp only [chainN]
    rw [h a (by simp), ih (fun b hb => h b (by simp [hb]))]

theorem chainP_congr (cc cc' : Cache) (p : Nat) (L : List Nat)
    (h : ∀ a, a ∈ L → get_prev cc' a = get_prev cc a) :
    chainP cc' p L ↔ chainP cc p L := by
  induction L generalizing p with
  | nil => simp [chainP]
  | cons a t ih =>
    simp only [chainP]
    rw [h a (by simp), ih a (fun b hb => h b (by simp [hb]))]

theorem chainN_mem (cc : Cache) (L : List Nat) (q a : Nat)
    (hc : chainN cc L q) (ha : a ∈ L) : get_next cc a ∈ L ∨ get_next cc a = q := by
  induction L with
  | nil => cases ha
  | cons b t ih =>
    obtain ⟨h1, h2⟩ := hc
    rcases List.mem_cons.mp ha with rfl | hat
    · cases t with
      | nil => exact Or.inr h1
      | cons c u => exact Or.inl (by rw [h1]; simp [headT])
    · rcases ih h2 hat with h | h
      · exact Or.inl (by simp [h])
      · exact Or.inr h

theorem chainP_mem (cc : Cache) (L : List Nat) (p a : Nat)
    (hc : chainP cc p L) (ha : a ∈ L) : get_prev cc a ∈ L ∨ get_prev cc a = p := by
  induction L generalizing p with
  | nil => cases ha
  | cons b t ih =>
    obtain ⟨h1, h2⟩ := hc
    rcases List.mem_cons.mp ha with rfl | hat
    · exact Or.inr h1
    · rcases ih b h2 hat with h | h
      · exact Or.inl (by simp [h])
      · exact Or.inl (by simp [h])

/- ===== Transport of the allocation predicates along store_ptr ===== -/

theorem allocated_eq_ptr (cc cc' : Cache) (h : cc'.store_ptr = cc.store_ptr) :
    Allocated cc' = Allocated cc := by
  funext a
  unfold Allocated
  rw [h]

theorem validA_eq_ptr (cc cc' : Cache) (h : cc'.store_ptr = cc.store_ptr) :
    validA cc' = validA cc := by
  funext v
  unfold validA
  rw [allocated_eq_ptr cc cc' h]

theorem linkish_eq_ptr (cc cc' : Cache) (h : cc'.store_ptr = cc.store_ptr) :
    linkish cc' = linkish cc := by
  funext v
  unfold linkish
  rw [allocated_eq_ptr cc cc' h]

/- ===== Validity of the tree walks ===== -/

theorem find_node_go_valid (cc : Cache) (id : List Nat)
    (hl : ∀ a, Allocated cc a → validA cc (get_left cc a) ∧ validA cc (get_right cc a)) :
    ∀ fuel x y, validA cc x → linkish cc y →
      validA cc (find_node_go cc id fuel x y).1 ∧
      linkish cc (find_node_go cc id fuel x y).2 ∧
      ((find_node_go cc id fuel x y).1 ≠ ADDR_NULL →
        Allocated cc (find_node_go cc id fuel x y).1) := by
  intro fuel
  induction fuel with
  | zero =>
    intro x y hx hy
    exact ⟨Or.inl rfl, hy, fun h => absurd rfl h⟩
  | succ n ih =>
    intro x y hx hy
    unfold find_node_go
    by_cases hxn : x = ADDR_NULL
    · rw [if_pos hxn]
      exact ⟨Or.inl rfl, hy, fun h => absurd rfl h⟩
    · rw [if_neg hxn]
      have hxa : Allocated cc x := hx.resolve_left hxn
      obtain ⟨hL, hR⟩ := hl x hxa
      cases hcmp : cmpBytes id (readBytes cc.store (x + SESSION_ID_OFF) SESSION_ID_LEN) with
      | lt =>
        simp only []
        exact ih (get_left cc x) (x + TREE_LEFT_OFF) hL (Or.inr ⟨x, hxa, Or.inl rfl⟩)
      | eq =>
        exact ⟨Or.inr hxa, hy, fun _ => hxa⟩
      | gt =>
        simp only []
        exact ih (get_right cc x) (x + TREE_RIGHT_OFF) hR (Or.inr ⟨x, hxa, Or.inr rfl⟩)

theorem find_node_valid (cc : Cache) (id : List Nat)
    (hroot : validA cc cc.root)
    (hl : ∀ a, Allocated cc a → validA cc (get_left cc a) ∧ validA cc (get_right cc a)) :
    validA cc (find_node cc id).1 ∧ linkish cc (find_node cc id).2 ∧
    ((find_node cc id).1 ≠ ADDR_NULL → Allocated cc (find_node cc id).1) :=
  find_node_go_valid cc id hl (nodeFuel cc) cc.root ADDR_NULL hroot (Or.inl rfl)

theorem repl_right_valid (cc : Cache)
    (hl : ∀ a, Allocated cc a → validA cc (get_left cc a) ∧ validA cc (get_right cc a)) :
    ∀ fuel y1 y2, Allocated cc y1 → linkish cc y2 →
      Allocated cc (repl_right cc fuel y1 y2).1 ∧ linkish cc (repl_right cc fuel y1 y2).2 := by
  intro fuel
  induction fuel with
  | zero => intro y1 y2 h1 h2; exact ⟨h1, h2⟩
  | succ n ih =>
    intro y1 y2 h1 h2
    unfold repl_right
    simp only []
    by_cases hz : get_right cc y1 = ADDR_NULL
    · rw [if_pos hz]
      exact ⟨h1, h2⟩
    · rw [if_neg hz]
      exact ih (get_right cc y1) (y1 + TREE_RIGHT_OFF)
        (((hl y1 h1).2).resolve_left hz) (Or.inr ⟨y1, h1, Or.inr rfl⟩)

theorem repl_left_valid (cc : Cache)
    (hl : ∀ a, Allocated cc a → validA cc (get_left cc a) ∧ validA cc (get_right cc a)) :
    ∀ fuel y1 y2, Allocated cc y1 → linkish cc y2 →
      Allocated cc (repl_left cc fuel y1 y2).1 ∧ linkish cc (repl_left cc fuel y1 y2).2 := by
  intro fuel
  induction fuel with
  | zero => intro y1 y2 h1 h2; exact ⟨h1, h2⟩
  | succ n ih =>
    intro y1 y2 h1 h2
    unfold repl_left
    simp only []
    by_cases hz : get_left cc y1 = ADDR_NULL
    · rw [if_pos hz]
      exact ⟨h1, h2⟩
    · rw [if_neg hz]
      exact ih (get_left cc y1) (y1 + TREE_LEFT_OFF)
        (((hl y1 h1).1).resolve_left hz) (Or.inr ⟨y1, h1, Or.inl rfl⟩)

theorem find_replacement_valid (cc : Cache) (x : Nat)
    (hl : ∀ a, Allocated cc a → validA cc (get_left cc a) ∧ validA cc (get_right cc a))
    (hx : Allocated cc x) :
    validA cc (find_replacement_node cc x).1 ∧ linkish cc (find_replacement_node cc x).2 := by
  unfold find_replacement_node
  simp only []
  by_cases h1 : get_left cc x ≠ ADDR_NULL
  · rw [if_pos h1]
    obtain ⟨a1, a2⟩ := repl_right_valid cc hl (nodeFuel cc) (get_left cc x) (x + TREE_LEFT_OFF)
      (((hl x hx).1).resolve_left h1) (Or.inr ⟨x, hx, Or.inl rfl⟩)
    exact ⟨Or.inr a1, a2⟩
  · rw [if_neg h1]
    by_cases h2 : get_right cc x ≠ ADDR_NULL
    · rw [if_pos h2]
      obtain ⟨a1, a2⟩ := repl_left_valid cc hl (nodeFuel cc) (get_right cc x) (x + TREE_RIGHT_OFF)
        (((hl x hx).2).resolve_left h2) (Or.inr ⟨x, hx, Or.inr rfl⟩)
      exact ⟨Or.inr a1, a2⟩
    · rw [if_neg h2]
      exact ⟨Or.inl rfl, Or.inl rfl⟩

/- ===== Effects of set_link ===== -/

theorem dec32be_enc32be_frame (s : Nat → Nat) (o o' v : Nat)
    (h : o + 4 ≤ o' ∨ o' + 4 ≤ o) :
    dec32be (enc32be s o' v) o = dec32be s o :=
  dec32be_congr _ _ _ (fun i h1 h2 => enc32be_outside _ _ _ _ (by omega))

theorem allocated_facts (cc : Cache) (v : Nat) (hptr : cc.store_ptr ≤ 4294967295)
    (h : Allocated cc v) : v < 4294967296 ∧ v % 100 = 0 ∧ v + 100 ≤ cc.store_ptr := by
  obtain ⟨h1, h2⟩ := h
  simp only [LRU_ENTRY_LEN] at h1 h2
  exact ⟨by omega, h1, h2⟩

theorem validA_lt (cc : Cache) (v : Nat) (hptr : cc.store_ptr ≤ 4294967295)
    (h : validA cc v) : v < 4294967296 := by
  rcases h with h | h
  · simp only [h, ADDR_NULL]
    omega
  · exact (allocated_facts cc v hptr h).1

theorem set_link_store_of_ne (cc : Cache) (alx v : Nat) (h : alx ≠ ADDR_NULL) :
    (set_link cc alx v).store = enc32be cc.store alx v ∧
    (set_link cc alx v).root = cc.root := by
  unfold set_link
  rw [if_neg h]
  exact ⟨rfl, rfl⟩

theorem set_link_store_of_eq (cc : Cache) (alx v : Nat) (h : alx = ADDR_NULL) :
    (set_link cc alx v).store = cc.store ∧ (set_link cc alx v).root = v := by
  unfold set_link
  rw [if_pos h]
  exact ⟨rfl, rfl⟩

theorem set_link_listfields (cc : Cache) (alx v : Nat)
    (hptr : cc.store_ptr ≤ 4294967295) (hal : linkish cc alx) :
    ∀ a, a % 100 = 0 →
      get_prev (set_link cc alx v) a = get_prev cc a ∧
      get_next (set_link cc alx v) a = get_next cc a := by
  intro a ha
  rcases hal with h | ⟨w, hw, hoff⟩
  · unfold get_prev get_next
    rw [(set_link_store_of_eq cc alx v h).1]
    exact ⟨rfl, rfl⟩
  · have hwne : alx ≠ ADDR_NULL := by
      obtain ⟨hw1, hw2, hw3⟩ := allocated_facts cc w hptr hw
      simp only [ADDR_NULL, TREE_LEFT_OFF, TREE_RIGHT_OFF] at *
      omega
    obtain ⟨hs, _⟩ := set_link_store_of_ne cc alx v hwne
    obtain ⟨hw1, hw2, hw3⟩ := allocated_facts cc w hptr hw
    unfold get_prev get_next
    rw [hs]
    constructor
    · apply dec32be_enc32be_frame
      simp only [LIST_PREV_OFF, TREE_LEFT_OFF, TREE_RIGHT_OFF] at *
      omega
    · apply dec32be_enc32be_frame
      simp only [LIST_NEXT_OFF, TREE_LEFT_OFF, TREE_RIGHT_OFF] at *
      omega

theorem set_link_treefields (cc : Cache) (alx v : Nat)
    (hptr : cc.store_ptr ≤ 4294967295)
    (hal : linkish cc alx) (hv : validA cc v)
    (hl : ∀ a, Allocated cc a → validA cc (get_left cc a) ∧ validA cc (get_right cc a)) :
    ∀ a, Allocated cc a →
      validA cc (get_left (set_link cc alx v) a) ∧
      validA cc (get_right (set_link cc alx v) a) := by
  intro a ha
  have hv32 : v < 4294967296 := validA_lt cc v hptr hv
  rcases hal with h | ⟨w, hw, hoff⟩
  · unfold get_left get_right
    rw [(set_link_store_of_eq cc alx v h).1]
    exact hl a ha
  · have hwf := allocated_facts cc w hptr hw
    have haf := allocated_facts cc a hptr ha
    have hwne : alx ≠ ADDR_NULL := by
      simp only [ADDR_NULL, TREE_LEFT_OFF, TREE_RIGHT_OFF] at *
      omega
    obtain ⟨hs, _⟩ := set_link_store_of_ne cc alx v hwne
    unfold get_left get_right
    rw [hs]
    constructor
    · by_cases he : alx = a + TREE_LEFT_OFF
      · rw [he, dec32be_enc32be _ _ _ hv32]
        exact hv
      · rw [dec32be_enc32be_frame _ _ _ _ (by
          simp only [TREE_LEFT_OFF, TREE_RIGHT_OFF] at *
          omega)]
        exact (hl a ha).1
    · by_cases he : alx = a + TREE_RIGHT_OFF
      · rw [he, dec32be_enc32be _ _ _ hv32]
        exact hv
      · rw [dec32be_enc32be_frame _ _ _ _ (by
          simp only [TREE_LEFT_OFF, TREE_RIGHT_OFF] at *
          omega)]
        exact (hl a ha).2

theorem set_link_root_valid (cc : Cache) (alx v : Nat)
    (hv : validA cc v) (hroot : validA cc cc.root) :
    validA cc (set_link cc alx v).root := by
  by_cases h : alx = ADDR_NULL
  · rw [(set_link_store_of_eq cc alx v h).2]
    exact hv
  · rw [(set_link_store_of_ne cc alx v h).2]
    exact hroot

/- ===== Effects of remove_node ===== -/

theorem remove_node_effects (cc : Cache) (x : Nat)
    (hptr : cc.store_ptr ≤ 4294967295)
    (hroot : validA cc cc.root)
    (hl : ∀ a, Allocated cc a → validA cc (get_left cc a) ∧ validA cc (get_right cc a))
    (hx : Allocated cc x) :
    validA cc (remove_node cc x).root ∧
    (∀ a, Allocated cc a →
      validA cc (get_left (remove_node cc x) a) ∧
      validA cc (get_right (remove_node cc x) a)) ∧
    (∀ a, a % 100 = 0 →
      get_prev (remove_node cc x) a = get_prev cc a ∧
      get_next (remove_node cc x) a = get_next cc a) := by
  have e : remove_node cc x =
      set_link (set_link cc (find_replacement_node cc x).2 ADDR_NULL)
        (find_node cc (readBytes cc.store (x + SESSION_ID_OFF) SESSION_ID_LEN)).2
        (find_replacement_node cc x).1 := rfl
  obtain ⟨hrv, hrl⟩ := find_replacement_valid cc x hl hx
  obtain ⟨_, hfl, _⟩ :=
    find_node_valid cc (readBytes cc.store (x + SESSION_ID_OFF) SESSION_ID_LEN) hroot hl
  set cc1 := set_link cc (find_replacement_node cc x).2 ADDR_NULL with hcc1
  have hptr1 : cc1.store_ptr = cc.store_ptr := (set_link_scalars _ _ _).2.1
  have hptr1' : cc1.store_ptr ≤ 4294967295 := by rw [hptr1]; exact hptr
  have hA1 : Allocated cc1 = Allocated cc := allocated_eq_ptr cc cc1 hptr1
  have hV1 : validA cc1 = validA cc := validA_eq_ptr cc cc1 hptr1
  have hL1 : linkish cc1 = linkish cc := linkish_eq_ptr cc cc1 hptr1
  have t1 : ∀ a, Allocated cc a →
      validA cc (get_left cc1 a) ∧ validA cc (get_right cc1 a) :=
    set_link_treefields cc (find_replacement_node cc x).2 ADDR_NULL hptr hrl
      (Or.inl rfl) hl
  have r1 : validA cc cc1.root :=
    set_link_root_valid cc (find_replacement_node cc x).2 ADDR_NULL (Or.inl rfl) hroot
  have p1 : ∀ a, a % 100 = 0 →
      get_prev cc1 a = get_prev cc a ∧ get_next cc1 a = get_next cc a :=
    set_link_listfields cc (find_replacement_node cc x).2 ADDR_NULL hptr hrl
  have t2 : ∀ a, Allocated cc1 a →
      validA cc1 (get_left (set_link cc1
        (find_node cc (readBytes cc.store (x + SESSION_ID_OFF) SESSION_ID_LEN)).2
        (find_replacement_node cc x).1) a) ∧
      validA cc1 (get_right (set_link cc1
        (find_node cc (readBytes cc.store (x + SESSION_ID_OFF) SESSION_ID_LEN)).2
        (find_replacement_node cc x).1) a) := by
    apply set_link_treefields cc1 _ _ hptr1'
    · rw [hL1]; exact hfl
    · rw [hV1]; exact hrv
    · intro a ha
      rw [hV1]
      rw [hA1] at ha
      exact t1 a ha
  have r2 : validA cc1 (set_link cc1
      (find_node cc (readBytes cc.store (x + SESSION_ID_OFF) SESSION_ID_LEN)).2
      (find_replacement_node cc x).1).root := by
    apply set_link_root_valid cc1
    · rw [hV1]; exact hrv
    · rw [hV1]; exact r1
  have p2 : ∀ a, a % 100 = 0 →
      get_prev (set_link cc1
        (find_node cc (readBytes cc.store (x + SESSION_ID_OFF) SESSION_ID_LEN)).2
        (find_replacement_node cc x).1) a = get_prev cc1 a ∧
      get_next (set_link cc1
        (find_node cc (readBytes cc.store (x + SESSION_ID_OFF) SESSION_ID_LEN)).2
        (find_replacement_node cc x).1) a = get_next cc1 a := by
    apply set_link_listfields cc1 _ _ hptr1'
    rw [hL1]; exact hfl
  rw [e]
  refine ⟨?_, ?_, ?_⟩
  · have := r2
    rw [hV1] at this
    exact this
  · intro a ha
    have := t2 a (by rw [hA1]; exact ha)
    rw [hV1] at this
    exact this
  · intro a ha
    obtain ⟨q1, q2⟩ := p2 a ha
    obtain ⟨q3, q4⟩ := p1 a ha
    exact ⟨by rw [q1, q3], by rw [q2, q4]⟩


theorem set_link_treefields2 (cc : Cache) (alx v : Nat)
    (hptr : cc.store_ptr ≤ 4294967295)
    (hal : linkish cc alx) (hv : validA cc v) (a : Nat) (ha : Allocated cc a)
    (hla : validA cc (get_left cc a)) (hra : validA cc (get_right cc a)) :
    validA cc (get_left (set_link cc alx v) a) ∧
    validA cc (get_right (set_link cc alx v) a) := by
  have hv32 : v < 4294967296 := validA_lt cc v hptr hv
  rcases hal with h | ⟨w, hw, hoff⟩
  · unfold get_left get_right
    rw [(set_link_store_of_eq cc alx v h).1]
    exact ⟨hla, hra⟩
  · have hwf := allocated_facts cc w hptr hw
    have haf := allocated_facts cc a hptr ha
    have hwne : alx ≠ ADDR_NULL := by
      simp only [ADDR_NULL, TREE_LEFT_OFF, TREE_RIGHT_OFF] at *
      omega
    obtain ⟨hs, _⟩ := set_link_store_of_ne cc alx v hwne
    unfold get_left get_right
    rw [hs]
    constructor
    · by_cases he : alx = a + TREE_LEFT_OFF
      · rw [he, dec32be_enc32be _ _ _ hv32]
        exact hv
      · rw [dec32be_enc32be_frame _ _ _ _ (by
          simp only [TREE_LEFT_OFF, TREE_RIGHT_OFF] at *
          omega)]
        exact hla
    · by_cases he : alx = a + TREE_RIGHT_OFF
      · rw [he, dec32be_enc32be _ _ _ hv32]
        exact hv
      · rw [dec32be_enc32be_frame _ _ _ _ (by
          simp only [TREE_LEFT_OFF, TREE_RIGHT_OFF] at *
          omega)]
        exact hra

theorem find_node_go_store_congr (cc cc' : Cache) (hs : cc'.store = cc.store)
    (id : List Nat) : ∀ f x y, find_node_go cc' id f x y = find_node_go cc id f x y := by
  intro f
  induction f with
  | zero => intro x y; rfl
  | succ n ih =>
    intro x y
    unfold find_node_go
    simp only [get_left, get_right, hs, ih]

theorem allocated_mono (cc cc' : Cache) (h : cc.store_ptr ≤ cc'.store_ptr) (v : Nat) :
    Allocated cc v → Allocated cc' v := by
  intro hv
  exact ⟨hv.1, le_trans hv.2 h⟩

theorem validA_mono (cc cc' : Cache) (h : cc.store_ptr ≤ cc'.store_ptr) (v : Nat) :
    validA cc v → validA cc' v := by
  intro hv
  rcases hv with hv | hv
  · exact Or.inl hv
  · exact Or.inr (allocated_mono cc cc' h v hv)

theorem linkish_mono (cc cc' : Cache) (h : cc.store_ptr ≤ cc'.store_ptr) (v : Nat) :
    linkish cc v → linkish cc' v := by
  intro hv
  rcases hv with hv | ⟨w, hw, ho⟩
  · exact Or.inl hv
  · exact Or.inr ⟨w, allocated_mono cc cc' h w hw, ho⟩

theorem allocated_bump_arith (ptr a : Nat) (hmod : ptr % 100 = 0) :
    (a % 100 = 0 ∧ a + 100 ≤ ptr + 100) ↔ ((a % 100 = 0 ∧ a + 100 ≤ ptr) ∨ a = ptr) := by
  omega

theorem lru_insert_link_scalars (cc : Cache) (x : Nat) (id : List Nat) :
    (lru_insert_link cc x id).store_len = cc.store_len ∧
    (lru_insert_link cc x id).store_ptr = cc.store_ptr ∧
    (lru_insert_link cc x id).head = x ∧
    (lru_insert_link cc x id).tail = (if cc.head = ADDR_NULL then x else cc.tail) ∧
    (lru_insert_link cc x id).root = (set_link cc (find_node cc id).2 x).root := by
  unfold lru_insert_link set_link set_left set_right set_prev set_next
  simp only []
  split <;> split <;> simp_all

theorem lru_insert_link_spec (cc : Cache) (x : Nat) (id : List Nat)
    (hptr : cc.store_ptr ≤ 4294967295)
    (hx : Allocated cc x)
    (hroot : validA cc cc.root)
    (hfl : linkish cc (find_node cc id).2)
    (hl2 : ∀ a, Allocated cc a → a ≠ x →
      validA cc (get_left cc a) ∧ validA cc (get_right cc a))
    (hh : cc.head = ADDR_NULL ∨ (Allocated cc cc.head ∧ cc.head ≠ x)) :
    get_prev (lru_insert_link cc x id) x = ADDR_NULL ∧
    get_next (lru_insert_link cc x id) x = cc.head ∧
    get_left (lru_insert_link cc x id) x = ADDR_NULL ∧
    get_right (lru_insert_link cc x id) x = ADDR_NULL ∧
    (cc.head ≠ ADDR_NULL → get_prev (lru_insert_link cc x id) cc.head = x) ∧
    (∀ a, a % 100 = 0 → a ≠ x → a ≠ cc.head →
      get_prev (lru_insert_link cc x id) a = get_prev cc a) ∧
    (∀ a, a % 100 = 0 → a ≠ x →
      get_next (lru_insert_link cc x id) a = get_next cc a) ∧
    (∀ a, Allocated cc a → a ≠ x →
      validA cc (get_left (lru_insert_link cc x id) a) ∧
      validA cc (get_right (lru_insert_link cc x id) a)) ∧
    validA cc (lru_insert_link cc x id).root := by
  obtain ⟨hx32, hx100, hxle⟩ := allocated_facts cc x hptr hx
  have hNlt : ADDR_NULL < 4294967296 := by simp only [ADDR_NULL]; omega
  have hSLhead : (set_link cc (find_node cc id).2 x).head = cc.head :=
    (set_link_scalars cc (find_node cc id).2 x).2.2.2.2.2.1
  have hSLlist := set_link_listfields cc (find_node cc id).2 x hptr hfl
  have hSLtree : ∀ a, Allocated cc a → a ≠ x →
      validA cc (get_left (set_link cc (find_node cc id).2 x) a) ∧
      validA cc (get_right (set_link cc (find_node cc id).2 x) a) :=
    fun a ha hax => set_link_treefields2 cc (find_node cc id).2 x hptr hfl (Or.inr hx) a ha
      (hl2 a ha hax).1 (hl2 a ha hax).2
  have hSLroot := set_link_root_valid cc (find_node cc id).2 x (Or.inr hx) hroot
  have hrootL : validA cc (lru_insert_link cc x id).root := by
    rw [(lru_insert_link_scalars cc x id).2.2.2.2]
    exact hSLroot
  by_cases hhead : cc.head = ADDR_NULL
  · have hc : (set_right (set_left (set_link cc (find_node cc id).2 x) x ADDR_NULL) x
        ADDR_NULL).head = ADDR_NULL := hSLhead.trans hhead
    have estore : (lru_insert_link cc x id).store =
        enc32be (enc32be (enc32be (enc32be (set_link cc (find_node cc id).2 x).store
          (x + TREE_LEFT_OFF) ADDR_NULL) (x + TREE_RIGHT_OFF) ADDR_NULL)
          (x + LIST_PREV_OFF) ADDR_NULL) (x + LIST_NEXT_OFF)
          (set_link cc (find_node cc id).2 x).head := by
      unfold lru_insert_link
      simp only []
      rw [if_pos hc]
      rfl
    refine ⟨?_, ?_, ?_, ?_, fun hcon => absurd hhead hcon, ?_, ?_, ?_, hrootL⟩
    · unfold get_prev
      rw [estore]
      simp only [LIST_PREV_OFF, LIST_NEXT_OFF]
      rw [dec32be_enc32be_frame _ _ _ _ (by omega), dec32be_enc32be _ _ _ hNlt]
    · unfold get_next
      rw [estore, hSLhead]
      simp only [LIST_NEXT_OFF]
      rw [dec32be_enc32be _ _ _ (by rw [hhead]; exact hNlt)]
    · unfold get_left
      rw [estore]
      simp only [LIST_PREV_OFF, LIST_NEXT_OFF, TREE_LEFT_OFF, TREE_RIGHT_OFF]
      rw [dec32be_enc32be_frame _ _ _ _ (by omega), dec32be_enc32be_frame _ _ _ _ (by omega),
        dec32be_enc32be_frame _ _ _ _ (by omega), dec32be_enc32be _ _ _ hNlt]
    · unfold get_right
      rw [estore]
      simp only [LIST_PREV_OFF, LIST_NEXT_OFF, TREE_LEFT_OFF, TREE_RIGHT_OFF]
      rw [dec32be_enc32be_frame _ _ _ _ (by omega), dec32be_enc32be_frame _ _ _ _ (by omega),
        dec32be_enc32be _ _ _ hNlt]
    · intro a ha hax _
      unfold get_prev
      rw [estore]
      simp only [LIST_PREV_OFF, LIST_NEXT_OFF, TREE_LEFT_OFF, TREE_RIGHT_OFF]
      rw [dec32be_enc32be_frame _ _ _ _ (by omega), dec32be_enc32be_frame _ _ _ _ (by omega),
        dec32be_enc32be_frame _ _ _ _ (by omega), dec32be_enc32be_frame _ _ _ _ (by omega)]
      exact (hSLlist a ha).1
    · intro a ha hax
      unfold get_next
      rw [estore]
      simp only [LIST_PREV_OFF, LIST_NEXT_OFF, TREE_LEFT_OFF, TREE_RIGHT_OFF]
      rw [dec32be_enc32be_frame _ _ _ _ (by omega), dec32be_enc32be_frame _ _ _ _ (by omega),
        dec32be_enc32be_frame _ _ _ _ (by omega), dec32be_enc32be_frame _ _ _ _ (by omega)]
      exact (hSLlist a ha).2
    · intro a ha hax
      obtain ⟨ha32, ha100, hale⟩ := allocated_facts cc a hptr ha
      constructor
      · unfold get_left
        rw [estore]
        simp only [LIST_PREV_OFF, LIST_NEXT_OFF, TREE_LEFT_OFF, TREE_RIGHT_OFF]
        rw [dec32be_enc32be_frame _ _ _ _ (by omega), dec32be_enc32be_frame _ _ _ _ (by omega),
          dec32be_enc32be_frame _ _ _ _ (by omega), dec32be_enc32be_frame _ _ _ _ (by omega)]
        exact (hSLtree a ha hax).1
      · unfold get_right
        rw [estore]
        simp only [LIST_PREV_OFF, LIST_NEXT_OFF, TREE_LEFT_OFF, TREE_RIGHT_OFF]
        rw [dec32be_enc32be_frame _ _ _ _ (by omega), dec32be_enc32be_frame _ _ _ _ (by omega),
          dec32be_enc32be_frame _ _ _ _ (by omega), dec32be_enc32be_frame _ _ _ _ (by omega)]
        exact (hSLtree a ha hax).2
  · obtain ⟨hha, hhx⟩ := hh.resolve_left hhead
    obtain ⟨hh32, hh100, hhle⟩ := allocated_facts cc cc.head hptr hha
    have hc2 : ¬ ((set_right (set_left (set_link cc (find_node cc id).2 x) x ADDR_NULL) x
        ADDR_NULL).head = ADDR_NULL) := by
      have hch : (set_right (set_left (set_link cc (find_node cc id).2 x) x ADDR_NULL) x
          ADDR_NULL).head = cc.head := hSLhead
      rw [hch]
      exact hhead
    have estore0 : (lru_insert_link cc x id).store =
        enc32be (enc32be (enc32be (enc32be (enc32be (set_link cc (find_node cc id).2 x).store
          (x + TREE_LEFT_OFF) ADDR_NULL) (x + TREE_RIGHT_OFF) ADDR_NULL)
          ((set_link cc (find_node cc id).2 x).head + LIST_PREV_OFF) x)
          (x + LIST_PREV_OFF) ADDR_NULL) (x + LIST_NEXT_OFF)
          (set_link cc (find_node cc id).2 x).head := by
      unfold lru_insert_link
      simp only []
      rw [if_neg hc2]
      rfl
    have estore : (lru_insert_link cc x id).store =
        enc32be (enc32be (enc32be (enc32be (enc32be (set_link cc (find_node cc id).2 x).store
          (x + TREE_LEFT_OFF) ADDR_NULL) (x + TREE_RIGHT_OFF) ADDR_NULL)
          (cc.head + LIST_PREV_OFF) x)
          (x + LIST_PREV_OFF) ADDR_NULL) (x + LIST_NEXT_OFF)
          (set_link cc (find_node cc id).2 x).head := by
      rw [estore0, hSLhead]
    refine ⟨?_, ?_, ?_, ?_, fun _ => ?_, ?_, ?_, ?_, hrootL⟩
    · unfold get_prev
      rw [estore]
      simp only [LIST_PREV_OFF, LIST_NEXT_OFF]
      rw [dec32be_enc32be_frame _ _ _ _ (by omega), dec32be_enc32be _ _ _ hNlt]
    · unfold get_next
      rw [estore, hSLhead]
      simp only [LIST_NEXT_OFF]
      rw [dec32be_enc32be _ _ _ hh32]
    · unfold get_left
      rw [estore]
      simp only [LIST_PREV_OFF, LIST_NEXT_OFF, TREE_LEFT_OFF, TREE_RIGHT_OFF]
      rw [dec32be_enc32be_frame _ _ _ _ (by omega), dec32be_enc32be_frame _ _ _ _ (by omega),
        dec32be_enc32be_frame _ _ _ _ (by omega), dec32be_enc32be_frame _ _ _ _ (by omega),
        dec32be_enc32be _ _ _ hNlt]
    · unfold get_right
      rw [estore]
      simp only [LIST_PREV_OFF, LIST_NEXT_OFF, TREE_LEFT_OFF, TREE_RIGHT_OFF]
      rw [dec32be_enc32be_frame _ _ _ _ (by omega), dec32be_enc32be_frame _ _ _ _ (by omega),
        dec32be_enc32be_frame _ _ _ _ (by omega), dec32be_enc32be _ _ _ hNlt]
    · unfold get_prev
      rw [estore]
      simp only [LIST_PREV_OFF, LIST_NEXT_OFF]
      rw [dec32be_enc32be_frame _ _ _ _ (by omega), dec32be_enc32be_frame _ _ _ _ (by omega),
        dec32be_enc32be _ _ _ hx32]
    · intro a ha hax hah
      unfold get_prev
      rw [estore]
      simp only [LIST_PREV_OFF, LIST_NEXT_OFF, TREE_LEFT_OFF, TREE_RIGHT_OFF]
      rw [dec32be_enc32be_frame _ _ _ _ (by omega), dec32be_enc32be_frame _ _ _ _ (by omega),
        dec32be_enc32be_frame _ _ _ _ (by omega), dec32be_enc32be_frame _ _ _ _ (by omega),
        dec32be_enc32be_frame _ _ _ _ (by omega)]
      exact (hSLlist a ha).1
    · intro a ha hax
      unfold get_next
      rw [estore]
      simp only [LIST_PREV_OFF, LIST_NEXT_OFF, TREE_LEFT_OFF, TREE_RIGHT_OFF]
      rw [dec32be_enc32be_frame _ _ _ _ (by omega), dec32be_enc32be_frame _ _ _ _ (by omega),
        dec32be_enc32be_frame _ _ _ _ (by omega), dec32be_enc32be_frame _ _ _ _ (by omega),
        dec32be_enc32be_frame _ _ _ _ (by omega)]
      exact (hSLlist a ha).2
    · intro a ha hax
      obtain ⟨ha32, ha100, hale⟩ := allocated_facts cc a hptr ha
      constructor
      · unfold get_left
        rw [estore]
        simp only [LIST_PREV_OFF, LIST_NEXT_OFF, TREE_LEFT_OFF, TREE_RIGHT_OFF]
        rw [dec32be_enc32be_frame _ _ _ _ (by omega), dec32be_enc32be_frame _ _ _ _ (by omega),
          dec32be_enc32be_frame _ _ _ _ (by omega), dec32be_enc32be_frame _ _ _ _ (by omega),
          dec32be_enc32be_frame _ _ _ _ (by omega)]
        exact (hSLtree a ha hax).1
      · unfold get_right
        rw [estore]
        simp only [LIST_PREV_OFF, LIST_NEXT_OFF, TREE_LEFT_OFF, TREE_RIGHT_OFF]
        rw [dec32be_enc32be_frame _ _ _ _ (by omega), dec32be_enc32be_frame _ _ _ _ (by omega),
          dec32be_enc32be_frame _ _ _ _ (by omega), dec32be_enc32be_frame _ _ _ _ (by omega),
          dec32be_enc32be_frame _ _ _ _ (by omega)]
        exact (hSLtree a ha hax).2

/- ===== Link fields are untouched by the insertion data phase ===== -/

theorem lru_insert_linkfields (cc : Cache) (x : Nat) (id : List Nat)
    (params : SessionParams) (hx : x % 100 = 0) :
    ∀ a, a % 100 = 0 →
      get_prev (lru_insert cc x id params) a = get_prev (lru_insert_link cc x id) a ∧
      get_next (lru_insert cc x id params) a = get_next (lru_insert_link cc x id) a ∧
      get_left (lru_insert cc x id params) a = get_left (lru_insert_link cc x id) a ∧
      get_right (lru_insert cc x id params) a = get_right (lru_insert_link cc x id) a := by
  intro a ha
  have h1 : (List.take SESSION_ID_LEN id).length ≤ 32 := by
    rw [List.length_take]
    simp only [SESSION_ID_LEN]
    omega
  have h2 : (List.take MASTER_SECRET_LEN params.master_secret).length ≤ 48 := by
    rw [List.length_take]
    simp only [MASTER_SECRET_LEN]
    omega
  unfold get_prev get_next get_left get_right
  rw [lru_insert_store]
  simp only [SESSION_ID_OFF, MASTER_SECRET_OFF, VERSION_OFF, CIPHER_SUITE_OFF,
    LIST_PREV_OFF, LIST_NEXT_OFF, TREE_LEFT_OFF, TREE_RIGHT_OFF]
  refine ⟨?_, ?_, ?_, ?_⟩ <;>
    exact dec32be_congr _ _ _ (fun i hi1 hi2 => by
      rw [enc16be_outside _ _ _ _ (by omega), enc16be_outside _ _ _ _ (by omega),
        writeBytes_outside _ _ _ _ (by omega), writeBytes_outside _ _ _ _ (by omega)])

/- ===== Transport of the invariant along equal observable fields ===== -/

theorem cacheInv_transport (cc cc' : Cache)
    (hs : cc'.store = cc.store) (hlen : cc'.store_len = cc.store_len)
    (hptr : cc'.store_ptr = cc.store_ptr) (hh : cc'.head = cc.head)
    (ht : cc'.tail = cc.tail) (hr : cc'.root = cc.root)
    (h : CacheInv cc) : CacheInv cc' := by
  have hA : Allocated cc' = Allocated cc := allocated_eq_ptr cc cc' hptr
  have hV : validA cc' = validA cc := validA_eq_ptr cc cc' hptr
  have hgp : ∀ a, get_prev cc' a = get_prev cc a := fun a => by
    unfold get_prev; rw [hs]
  have hgn : ∀ a, get_next cc' a = get_next cc a := fun a => by
    unfold get_next; rw [hs]
  have hgl : ∀ a, get_left cc' a = get_left cc a := fun a => by
    unfold get_left; rw [hs]
  have hgr : ∀ a, get_right cc' a = get_right cc a := fun a => by
    unfold get_right; rw [hs]
  refine ⟨by rw [hlen]; exact h.len_le, by rw [hptr]; exact h.ptr_mod,
    by rw [hptr, hlen]; exact h.ptr_le, by rw [hV, hr]; exact h.root_ok, ?_, ?_⟩
  · intro a ha
    rw [hV, hgl, hgr]
    rw [hA] at ha
    exact h.links_ok a ha
  · obtain ⟨L, hnd, hmem, hl1, hl2, hl3, hl4⟩ := h.lru
    refine ⟨L, hnd, ?_, ?_, ?_, ?_, ?_⟩
    · intro a
      rw [hA]
      exact hmem a
    · rw [hh]; exact hl1
    · rw [ht]; exact hl2
    · rw [chainN_congr cc cc' L ADDR_NULL (fun a _ => hgn a)]
      exact hl3
    · rw [chainP_congr cc cc' ADDR_NULL L (fun a _ => hgp a)]
      exact hl4

/- ===== lastT does not depend on the default for nonempty lists ===== -/

theorem lastT_irrel (p p' : Nat) (L : List Nat) (h : L ≠ []) :
    lastT p L = lastT p' L := by
  cases L with
  | nil => exact absurd rfl h
  | cons a t => rfl

/- ===== The invariant after an insertion ===== -/

theorem cacheInv_insert (cc : Cache) (x : Nat) (id : List Nat) (params : SessionParams)
    (M : List Nat)
    (hlen : cc.store_len ≤ 4294967295)
    (hmod : cc.store_ptr % LRU_ENTRY_LEN = 0)
    (hple : cc.store_ptr ≤ cc.store_len)
    (hroot : validA cc cc.root)
    (hfl : linkish cc (find_node cc id).2)
    (hl2 : ∀ a, Allocated cc a → a ≠ x →
      validA cc (get_left cc a) ∧ validA cc (get_right cc a))
    (hx : Allocated cc x)
    (hnd : M.Nodup) (hxm : x ∉ M)
    (hmem : ∀ a, (a = x ∨ a ∈ M) ↔ Allocated cc a)
    (hLM : listOK cc M) :
    CacheInv (lru_insert cc x id params) ∧
    (lru_insert cc x id params).store_ptr = cc.store_ptr := by
  have hptr : cc.store_ptr ≤ 4294967295 := le_trans hple hlen
  obtain ⟨hx32, hx100, hxle⟩ := allocated_facts cc x hptr hx
  obtain ⟨hm1, hm2, hm3, hm4⟩ := hLM
  have hh : cc.head = ADDR_NULL ∨ (Allocated cc cc.head ∧ cc.head ≠ x) := by
    cases M with
    | nil => exact Or.inl hm1
    | cons h0 t =>
      right
      have hh0 : cc.head = h0 := hm1
      have hmem0 : h0 ∈ h0 :: t := by simp
      have hall : Allocated cc h0 := (hmem h0).mp (Or.inr hmem0)
      refine ⟨by rw [hh0]; exact hall, ?_⟩
      rw [hh0]
      intro he
      exact hxm (he ▸ hmem0)
  have spec := lru_insert_link_spec cc x id hptr hx hroot hfl hl2 hh
  obtain ⟨s1, s2, s3, s4, s5, s6, s7, s8, s9⟩ := spec
  have lf := lru_insert_linkfields cc x id params hx100
  have hF := lru_insert_scalars cc x id params
  have hFtail : (lru_insert cc x id params).tail = (lru_insert_link cc x id).tail := rfl
  have hFroot : (lru_insert cc x id params).root = (lru_insert_link cc x id).root := rfl
  have hLKtail := (lru_insert_link_scalars cc x id).2.2.2.1
  have hVF : validA (lru_insert cc x id params) = validA cc :=
    validA_eq_ptr cc _ hF.2.1
  have hAF : Allocated (lru_insert cc x id params) = Allocated cc :=
    allocated_eq_ptr cc _ hF.2.1
  refine ⟨⟨by rw [hF.1]; exact hlen, by rw [hF.2.1]; exact hmod,
    by rw [hF.2.1, hF.1]; exact hple, ?_, ?_, ?_⟩, hF.2.1⟩
  · rw [hVF, hFroot]
    exact s9
  · intro a ha
    rw [hAF] at ha
    rw [hVF]
    obtain ⟨ha32, ha100, hale⟩ := allocated_facts cc a hptr ha
    by_cases hax : a = x
    · subst hax
      rw [(lf a ha100).2.2.1, (lf a ha100).2.2.2, s3, s4]
      exact ⟨Or.inl rfl, Or.inl rfl⟩
    · rw [(lf a ha100).2.2.1, (lf a ha100).2.2.2]
      exact s8 a ha hax
  · refine ⟨x :: M, List.nodup_cons.mpr ⟨hxm, hnd⟩, ?_, ?_, ?_, ?_, ?_⟩
    · intro a
      rw [hAF]
      rw [List.mem_cons]
      exact hmem a
    · rw [hF.2.2.2.2.2]
      rfl
    · rw [hFtail, hLKtail]
      cases M with
      | nil =>
        have hmn : cc.head = ADDR_NULL := hm1
        rw [if_pos hmn]
        rfl
      | cons h0 t =>
        have hh0 : cc.head = h0 := hm1
        have hall : Allocated cc h0 := (hmem h0).mp (Or.inr (by simp))
        have hne : ¬ cc.head = ADDR_NULL := by
          obtain ⟨hf1, hf2, hf3⟩ := allocated_facts cc h0 hptr hall
          rw [hh0]
          simp only [ADDR_NULL]
          omega
        rw [if_neg hne, hm2]
        exact (lastT_irrel ADDR_NULL x (h0 :: t) (by simp)).symm
    · refine ⟨?_, ?_⟩
      · rw [(lf x hx100).2.1, s2, hm1]
      · rw [chainN_congr cc _ M ADDR_NULL (fun a haM => by
          have hall : Allocated cc a := (hmem a).mp (Or.inr haM)
          have hanx : a ≠ x := fun he => hxm (he ▸ haM)
          rw [(lf a hall.1).2.1, s7 a hall.1 hanx])]
        exact hm3
    · refine ⟨?_, ?_⟩
      · rw [(lf x hx100).1, s1]
      · cases M with
        | nil => trivial
        | cons h0 t =>
          obtain ⟨hp1, hp2⟩ := hm4
          have hh0 : cc.head = h0 := hm1
          have hall0 : Allocated cc h0 := (hmem h0).mp (Or.inr (by simp))
          have hne : cc.head ≠ ADDR_NULL := by
            obtain ⟨hf1, hf2, hf3⟩ := allocated_facts cc h0 hptr hall0
            rw [hh0]
            simp only [ADDR_NULL]
            omega
          refine ⟨?_, ?_⟩
          · rw [(lf h0 hall0.1).1, ← hh0]
            exact s5 hne
          · have hnd0 : h0 ∉ t := (List.nodup_cons.mp hnd).1
            rw [chainP_congr cc _ h0 t (fun a haT => by
              have hall : Allocated cc a := (hmem a).mp (Or.inr (by simp [haT]))
              have hanx : a ≠ x := fun he => hxm (he ▸ (by simp [haT] : a ∈ h0 :: t))
              have hanh : a ≠ cc.head := by
                rw [hh0]
                intro he
                exact hnd0 (he ▸ haT)
              rw [(lf a hall.1).1, s6 a hall.1 hanx hanh])]
            exact hp2

/- ===== Projection and read/write algebra for the list setters ===== -/

theorem set_prev_head (cc : Cache) (x v : Nat) : (set_prev cc x v).head = cc.head := rfl
theorem set_next_head (cc : Cache) (x v : Nat) : (set_next cc x v).head = cc.head := rfl
theorem set_prev_tail (cc : Cache) (x v : Nat) : (set_prev cc x v).tail = cc.tail := rfl
theorem set_next_tail (cc : Cache) (x v : Nat) : (set_next cc x v).tail = cc.tail := rfl
theorem set_prev_root (cc : Cache) (x v : Nat) : (set_prev cc x v).root = cc.root := rfl
theorem set_next_root (cc : Cache) (x v : Nat) : (set_next cc x v).root = cc.root := rfl
theorem set_prev_ptr (cc : Cache) (x v : Nat) : (set_prev cc x v).store_ptr = cc.store_ptr := rfl
theorem set_next_ptr (cc : Cache) (x v : Nat) : (set_next cc x v).store_ptr = cc.store_ptr := rfl
theorem set_prev_len (cc : Cache) (x v : Nat) : (set_prev cc x v).store_len = cc.store_len := rfl
theorem set_next_len (cc : Cache) (x v : Nat) : (set_next cc x v).store_len = cc.store_len := rfl

theorem get_prev_set_prev_same (cc : Cache) (a v : Nat) (hv : v < 4294967296) :
    get_prev (set_prev cc a v) a = v := by
  unfold get_prev set_prev
  exact dec32be_enc32be _ _ _ hv

theorem get_prev_set_prev_other (cc : Cache) (t v a : Nat) (ha : a % 100 = 0)
    (ht : t % 100 = 0) (h : a ≠ t) : get_prev (set_prev cc t v) a = get_prev cc a := by
  unfold get_prev set_prev
  exact dec32be_enc32be_frame _ _ _ _ (by simp only [LIST_PREV_OFF]; omega)

theorem get_prev_set_next (cc : Cache) (t v a : Nat) (ha : a % 100 = 0)
    (ht : t % 100 = 0) : get_prev (set_next cc t v) a = get_prev cc a := by
  unfold get_prev set_next
  exact dec32be_enc32be_frame _ _ _ _
    (by simp only [LIST_PREV_OFF, LIST_NEXT_OFF]; omega)

theorem get_next_set_next_same (cc : Cache) (a v : Nat) (hv : v < 4294967296) :
    get_next (set_next cc a v) a = v := by
  unfold get_next set_next
  exact dec32be_enc32be _ _ _ hv

theorem get_next_set_next_other (cc : Cache) (t v a : Nat) (ha : a % 100 = 0)
    (ht : t % 100 = 0) (h : a ≠ t) : get_next (set_next cc t v) a = get_next cc a := by
  unfold get_next set_next
  exact dec32be_enc32be_frame _ _ _ _ (by simp only [LIST_NEXT_OFF]; omega)

theorem get_next_set_prev (cc : Cache) (t v a : Nat) (ha : a % 100 = 0)
    (ht : t % 100 = 0) : get_next (set_prev cc t v) a = get_next cc a := by
  unfold get_next set_prev
  exact dec32be_enc32be_frame _ _ _ _
    (by simp only [LIST_PREV_OFF, LIST_NEXT_OFF]; omega)

theorem get_left_set_prev (cc : Cache) (t v a : Nat) (ha : a % 100 = 0)
    (ht : t % 100 = 0) : get_left (set_prev cc t v) a = get_left cc a := by
  unfold get_left set_prev
  exact dec32be_enc32be_frame _ _ _ _
    (by simp only [LIST_PREV_OFF, TREE_LEFT_OFF]; omega)

theorem get_left_set_next (cc : Cache) (t v a : Nat) (ha : a % 100 = 0)
    (ht : t % 100 = 0) : get_left (set_next cc t v) a = get_left cc a := by
  unfold get_left set_next
  exact dec32be_enc32be_frame _ _ _ _
    (by simp only [LIST_NEXT_OFF, TREE_LEFT_OFF]; omega)

theorem get_right_set_prev (cc : Cache) (t v a : Nat) (ha : a % 100 = 0)
    (ht : t % 100 = 0) : get_right (set_prev cc t v) a = get_right cc a := by
  unfold get_right set_prev
  exact dec32be_enc32be_frame _ _ _ _
    (by simp only [LIST_PREV_OFF, TREE_RIGHT_OFF]; omega)

theorem get_right_set_next (cc : Cache) (t v a : Nat) (ha : a % 100 = 0)
    (ht : t % 100 = 0) : get_right (set_next cc t v) a = get_right cc a := by
  unfold get_right set_next
  exact dec32be_enc32be_frame _ _ _ _
    (by simp only [LIST_NEXT_OFF, TREE_RIGHT_OFF]; omega)

/- ===== Retargeting the terminator of a next-chain ===== -/

theorem chainN_retarget (cc cc' : Cache) (A : List Nat) (q q' : Nat)
    (hA : A ≠ []) (hnd : A.Nodup)
    (hlast : get_next cc' (lastT ADDR_NULL A) = q')
    (hothers : ∀ a, a ∈ A → a ≠ lastT ADDR_NULL A → get_next cc' a = get_next cc a)
    (hold : chainN cc A q) : chainN cc' A q' := by
  induction A with
  | nil => exact absurd rfl hA
  | cons a t ih =>
    obtain ⟨h1, h2⟩ := hold
    cases t with
    | nil =>
      exact ⟨hlast, trivial⟩
    | cons b u =>
      have hlt : lastT ADDR_NULL (a :: b :: u) = lastT ADDR_NULL (b :: u) := by
        show lastT a (b :: u) = lastT ADDR_NULL (b :: u)
        exact lastT_irrel a ADDR_NULL (b :: u) (by simp)
      have hlm : lastT ADDR_NULL (b :: u) ∈ b :: u := by
        show lastT b u ∈ b :: u
        rcases lastT_mem b u with hm | hm
        · rw [hm]; simp
        · simp [hm]
      have hane : a ≠ lastT ADDR_NULL (a :: b :: u) := by
        rw [hlt]
        intro he
        exact (List.nodup_cons.mp hnd).1 (he ▸ hlm)
      refine ⟨?_, ?_⟩
      · rw [hothers a (by simp) hane, h1]
        rfl
      · apply ih (by simp) (List.nodup_cons.mp hnd).2
        · rw [← hlt]
          exact hlast
        · intro c hc hcl
          exact hothers c (by simp [hc]) (by rw [hlt]; exact hcl)
        · exact h2

theorem lastT_mem_ne (p : Nat) (L : List Nat) (h : L ≠ []) : lastT p L ∈ L := by
  cases L with
  | nil => exact absurd rfl h
  | cons a t =>
    show lastT a t ∈ a :: t
    rcases lastT_mem a t with hm | hm
    · rw [hm]; simp
    · simp [hm]

theorem get_prev_set_head (cc : Cache) (v a : Nat) :
    get_prev { cc with head := v } a = get_prev cc a := rfl
theorem get_next_set_head (cc : Cache) (v a : Nat) :
    get_next { cc with head := v } a = get_next cc a := rfl
theorem get_left_set_head (cc : Cache) (v a : Nat) :
    get_left { cc with head := v } a = get_left cc a := rfl
theorem get_right_set_head (cc : Cache) (v a : Nat) :
    get_right { cc with head := v } a = get_right cc a := rfl
theorem get_prev_set_tail (cc : Cache) (v a : Nat) :
    get_prev { cc with tail := v } a = get_prev cc a := rfl
theorem get_next_set_tail (cc : Cache) (v a : Nat) :
    get_next { cc with tail := v } a = get_next cc a := rfl
theorem get_left_set_tail (cc : Cache) (v a : Nat) :
    get_left { cc with tail := v } a = get_left cc a := rfl
theorem get_right_set_tail (cc : Cache) (v a : Nat) :
    get_right { cc with tail := v } a = get_right cc a := rfl

theorem cacheInv_tohead (cc : Cache) (x : Nat) (h : CacheInv cc) (hx : Allocated cc x) :
    CacheInv (lru_tohead cc x) ∧ (lru_tohead cc x).store_ptr = cc.store_ptr := by
  have hptr : cc.store_ptr ≤ 4294967295 := le_trans h.ptr_le h.len_le
  obtain ⟨hx32, hx100, hxle⟩ := allocated_facts cc x hptr hx
  have hN32 : ADDR_NULL < 4294967296 := by simp only [ADDR_NULL]; omega
  unfold lru_tohead
  simp only []
  by_cases hxh : x ≠ cc.head
  swap
  · rw [if_neg hxh]
    exact ⟨h, rfl⟩
  rw [if_pos hxh]
  obtain ⟨L, hnd, hmem, hh1, hh2, hh3, hh4⟩ := h.lru
  have hxL : x ∈ L := (hmem x).mpr hx
  obtain ⟨A, B, hAB⟩ := List.append_of_mem hxL
  subst hAB
  have hndx := List.nodup_append.mp hnd
  obtain ⟨hndA, hndxB, hdisj⟩ := hndx
  have hxA : x ∉ A := fun hc => hdisj hc (by simp)
  have hxB : x ∉ B := (List.nodup_cons.mp hndxB).1
  have hndB : B.Nodup := (List.nodup_cons.mp hndxB).2
  have hAne : A ≠ [] := by
    intro hA0
    subst hA0
    exact hxh (by rw [hh1]; rfl)
  have hheadA : cc.head = headT ADDR_NULL A := by
    rw [hh1, headT_append]
    cases A with
    | nil => exact absurd rfl hAne
    | cons a t => rfl
  have hheadmem : cc.head ∈ A := by
    rw [hheadA]
    cases A with
    | nil => exact absurd rfl hAne
    | cons a t => simp [headT]
  have hheadAll : Allocated cc cc.head := (hmem cc.head).mp (by simp [hheadmem])
  obtain ⟨hhd32, hhd100, hhdle⟩ := allocated_facts cc cc.head hptr hheadAll
  -- prev and next of x
  have hh4s := (chainP_append cc ADDR_NULL A (x :: B)).mp hh4
  obtain ⟨hPA, hPxB⟩ := hh4s
  obtain ⟨hpx, hPB⟩ := hPxB
  have hh3s := (chainN_append cc A (x :: B) ADDR_NULL).mp hh3
  obtain ⟨hNA, hNxB⟩ := hh3s
  obtain ⟨hnx, hNB⟩ := hNxB
  have hplast : get_prev cc x = lastT ADDR_NULL A := hpx
  have hpA : get_prev cc x ∈ A := by
    rw [hplast]
    exact lastT_mem_ne ADDR_NULL A hAne
  have hpAll : Allocated cc (get_prev cc x) := (hmem _).mp (by simp [hpA])
  obtain ⟨hp32, hp100, hple2⟩ := allocated_facts cc _ hptr hpAll
  have hpnex : get_prev cc x ≠ x := fun hc => hxA (hc ▸ hpA)
  cases B with
  | nil =>
    have hcn : get_next cc x = ADDR_NULL := hnx
    rw [if_pos hcn, hcn]
    set C2 : Cache :=
      { set_next cc (get_prev cc x) ADDR_NULL with tail := get_prev cc x } with hC2
    have hC2head : C2.head = cc.head := rfl
    rw [hC2head]
    have hC3head : (set_prev C2 cc.head x).head = cc.head := rfl
    rw [hC3head]
    set C3 : Cache := set_prev C2 cc.head x with hC3
    set C4 : Cache := set_next C3 x cc.head with hC4
    set C5 : Cache := set_prev C4 x ADDR_NULL with hC5
    have hhdnex : cc.head ≠ x := fun hc => hxh hc.symm
    have rPrevX : get_prev { C5 with head := x } x = ADDR_NULL := by
      rw [get_prev_set_head, hC5]
      exact get_prev_set_prev_same C4 x ADDR_NULL hN32
    have rNextX : get_next { C5 with head := x } x = cc.head := by
      rw [get_next_set_head, hC5, get_next_set_prev _ _ _ _ hx100 hx100, hC4]
      exact get_next_set_next_same C3 x cc.head hhd32
    have rPrevHd : get_prev { C5 with head := x } cc.head = x := by
      rw [get_prev_set_head, hC5, get_prev_set_prev_other _ _ _ _ hhd100 hx100 hhdnex,
        hC4, get_prev_set_next _ _ _ _ hhd100 hx100, hC3]
      exact get_prev_set_prev_same C2 cc.head x hx32
    have rPrevOther : ∀ a, a % 100 = 0 → a ≠ x → a ≠ cc.head →
        get_prev { C5 with head := x } a = get_prev cc a := by
      intro a ha hax hahd
      rw [get_prev_set_head, hC5, get_prev_set_prev_other _ _ _ _ ha hx100 hax, hC4,
        get_prev_set_next _ _ _ _ ha hx100, hC3,
        get_prev_set_prev_other _ _ _ _ ha hhd100 hahd, hC2, get_prev_set_tail,
        get_prev_set_next _ _ _ _ ha hp100]
    have rNextP : get_next { C5 with head := x } (get_prev cc x) = ADDR_NULL := by
      rw [get_next_set_head, hC5, get_next_set_prev _ _ _ _ hp100 hx100, hC4,
        get_next_set_next_other _ _ _ _ hp100 hx100 hpnex, hC3,
        get_next_set_prev _ _ _ _ hp100 hhd100, hC2, get_next_set_tail]
      exact get_next_set_next_same cc (get_prev cc x) ADDR_NULL hN32
    have rNextOther : ∀ a, a % 100 = 0 → a ≠ x → a ≠ get_prev cc x →
        get_next { C5 with head := x } a = get_next cc a := by
      intro a ha hax hap
      rw [get_next_set_head, hC5, get_next_set_prev _ _ _ _ ha hx100, hC4,
        get_next_set_next_other _ _ _ _ ha hx100 hax, hC3,
        get_next_set_prev _ _ _ _ ha hhd100, hC2, get_next_set_tail,
        get_next_set_next_other _ _ _ _ ha hp100 hap]
    have rLeft : ∀ a, a % 100 = 0 → get_left { C5 with head := x } a = get_left cc a := by
      intro a ha
      rw [get_left_set_head, hC5, get_left_set_prev _ _ _ _ ha hx100, hC4,
        get_left_set_next _ _ _ _ ha hx100, hC3, get_left_set_prev _ _ _ _ ha hhd100,
        hC2, get_left_set_tail, get_left_set_next _ _ _ _ ha hp100]
    have rRight : ∀ a, a % 100 = 0 → get_right { C5 with head := x } a = get_right cc a := by
      intro a ha
      rw [get_right_set_head, hC5, get_right_set_prev _ _ _ _ ha hx100, hC4,
        get_right_set_next _ _ _ _ ha hx100, hC3, get_right_set_prev _ _ _ _ ha hhd100,
        hC2, get_right_set_tail, get_right_set_next _ _ _ _ ha hp100]
    refine ⟨⟨h.len_le, h.ptr_mod, h.ptr_le, ?_, ?_, ?_⟩, rfl⟩
    · show validA cc cc.root
      exact h.root_ok
    · intro a ha
      have ha2 : Allocated cc a := ha
      show validA cc _ ∧ validA cc _
      rw [rLeft a ha2.1, rRight a ha2.1]
      exact h.links_ok a ha2
    · refine ⟨x :: A, List.nodup_cons.mpr ⟨hxA, hndA⟩, ?_, rfl, ?_, ?_, ?_⟩
      · intro a
        have h2 := hmem a
        simp only [List.mem_append, List.mem_cons, List.not_mem_nil, or_false] at h2
        simp only [List.mem_cons]
        constructor
        · intro hc
          exact h2.mp (Or.symm hc)
        · intro hc
          have h3 : Allocated cc a := hc
          exact Or.symm (h2.mpr h3)
      · show get_prev cc x = lastT ADDR_NULL (x :: A)
        rw [hplast]
        show lastT ADDR_NULL A = lastT x A
        exact (lastT_irrel x ADDR_NULL A hAne).symm
      · refine ⟨?_, ?_⟩
        · rw [rNextX, hheadA]
        · apply chainN_retarget cc _ A (headT ADDR_NULL [x]) ADDR_NULL hAne hndA
          · rw [← hplast]
            exact rNextP
          · intro a haA hal
            have haAll : Allocated cc a := (hmem a).mp (by simp [haA])
            exact rNextOther a haAll.1 (fun hc => hxA (hc ▸ haA))
              (by rw [hplast]; exact hal)
          · exact hNA
      · refine ⟨rPrevX, ?_⟩
        cases A with
        | nil => exact absurd rfl hAne
        | cons h0 A2 =>
          have hh0 : cc.head = h0 := hheadA
          obtain ⟨hpa1, hpa2⟩ := hPA
          refine ⟨?_, ?_⟩
          · rw [← hh0]
            exact rPrevHd
          · rw [chainP_congr cc _ h0 A2 (fun a haA => by
              have haAll : Allocated cc a := (hmem a).mp (by simp [haA])
              have hnd0 : h0 ∉ A2 := (List.nodup_cons.mp hndA).1
              exact rPrevOther a haAll.1
                (fun hc => hxA (hc ▸ (by simp [haA] : a ∈ h0 :: A2)))
                (by rw [hh0]; intro hc; exact hnd0 (hc ▸ haA)))]
            exact hpa2
  | cons b B2 =>
    have hbAll : Allocated cc b := (hmem b).mp (by simp)
    obtain ⟨hb32, hb100, hble⟩ := allocated_facts cc b hptr hbAll
    have hbneN : b ≠ ADDR_NULL := by simp only [ADDR_NULL]; omega
    have hnxb : get_next cc x = b := hnx
    have hbnex : b ≠ x := fun hc => hxB (by simp [hc.symm])
    have hbA : b ∉ A := fun hc => (hdisj hc) (by simp)
    have hbhd : b ≠ cc.head := fun hc => hbA (hc ▸ hheadmem)
    have hbp : b ≠ get_prev cc x := fun hc => hbA (hc ▸ hpA)
    have hhdnex : cc.head ≠ x := fun hc => hxh hc.symm
    have hcnne : ¬ get_next cc x = ADDR_NULL := by rw [hnxb]; exact hbneN
    rw [if_neg hcnne, hnxb]
    set C2 : Cache := set_prev (set_next cc (get_prev cc x) b) b (get_prev cc x) with hC2
    have hC2head : C2.head = cc.head := rfl
    rw [hC2head]
    have hC3head : (set_prev C2 cc.head x).head = cc.head := rfl
    rw [hC3head]
    set C3 : Cache := set_prev C2 cc.head x with hC3
    set C4 : Cache := set_next C3 x cc.head with hC4
    set C5 : Cache := set_prev C4 x ADDR_NULL with hC5
    have rPrevX : get_prev { C5 with head := x } x = ADDR_NULL := by
      rw [get_prev_set_head, hC5]
      exact get_prev_set_prev_same C4 x ADDR_NULL hN32
    have rNextX : get_next { C5 with head := x } x = cc.head := by
      rw [get_next_set_head, hC5, get_next_set_prev _ _ _ _ hx100 hx100, hC4]
      exact get_next_set_next_same C3 x cc.head hhd32
    have rPrevHd : get_prev { C5 with head := x } cc.head = x := by
      rw [get_prev_set_head, hC5, get_prev_set_prev_other _ _ _ _ hhd100 hx100 hhdnex,
        hC4, get_prev_set_next _ _ _ _ hhd100 hx100, hC3]
      exact get_prev_set_prev_same C2 cc.head x hx32
    have rPrevB : get_prev { C5 with head := x } b = get_prev cc x := by
      rw [get_prev_set_head, hC5, get_prev_set_prev_other _ _ _ _ hb100 hx100 hbnex,
        hC4, get_prev_set_next _ _ _ _ hb100 hx100, hC3,
        get_prev_set_prev_other _ _ _ _ hb100 hhd100 hbhd, hC2]
      exact get_prev_set_prev_same _ b _ hp32
    have rNextP : get_next { C5 with head := x } (get_prev cc x) = b := by
      rw [get_next_set_head, hC5, get_next_set_prev _ _ _ _ hp100 hx100, hC4,
        get_next_set_next_other _ _ _ _ hp100 hx100 hpnex, hC3,
        get_next_set_prev _ _ _ _ hp100 hhd100, hC2,
        get_next_set_prev _ _ _ _ hp100 hb100]
      exact get_next_set_next_same cc (get_prev cc x) b hb32
    have rPrevOther : ∀ a, a % 100 = 0 → a ≠ x → a ≠ cc.head → a ≠ b →
        get_prev { C5 with head := x } a = get_prev cc a := by
      intro a ha hax hahd hab
      rw [get_prev_set_head, hC5, get_prev_set_prev_other _ _ _ _ ha hx100 hax, hC4,
        get_prev_set_next _ _ _ _ ha hx100, hC3,
        get_prev_set_prev_other _ _ _ _ ha hhd100 hahd, hC2,
        get_prev_set_prev_other _ _ _ _ ha hb100 hab,
        get_prev_set_next _ _ _ _ ha hp100]
    have rNextOther : ∀ a, a % 100 = 0 → a ≠ x → a ≠ get_prev cc x →
        get_next { C5 with head := x } a = get_next cc a := by
      intro a ha hax hap
      rw [get_next_set_head, hC5, get_next_set_prev _ _ _ _ ha hx100, hC4,
        get_next_set_next_other _ _ _ _ ha hx100 hax, hC3,
        get_next_set_prev _ _ _ _ ha hhd100, hC2,
        get_next_set_prev _ _ _ _ ha hb100,
        get_next_set_next_other _ _ _ _ ha hp100 hap]
    have rLeft : ∀ a, a % 100 = 0 → get_left { C5 with head := x } a = get_left cc a := by
      intro a ha
      rw [get_left_set_head, hC5, get_left_set_prev _ _ _ _ ha hx100, hC4,
        get_left_set_next _ _ _ _ ha hx100, hC3, get_left_set_prev _ _ _ _ ha hhd100,
        hC2, get_left_set_prev _ _ _ _ ha hb100, get_left_set_next _ _ _ _ ha hp100]
    have rRight : ∀ a, a % 100 = 0 → get_right { C5 with head := x } a = get_right cc a := by
      intro a ha
      rw [get_right_set_head, hC5, get_right_set_prev _ _ _ _ ha hx100, hC4,
        get_right_set_next _ _ _ _ ha hx100, hC3, get_right_set_prev _ _ _ _ ha hhd100,
        hC2, get_right_set_prev _ _ _ _ ha hb100, get_right_set_next _ _ _ _ ha hp100]
    obtain ⟨h0, A2, hA0⟩ : ∃ h0 A2, A = h0 :: A2 := by
      cases A with
      | nil => exact absurd rfl hAne
      | cons h0 A2 => exact ⟨h0, A2, rfl⟩
    subst hA0
    have hh0 : cc.head = h0 := hheadA
    obtain ⟨hpa1, hpa2⟩ := hPA
    obtain ⟨hpb1, hPB2⟩ := hPB
    obtain ⟨hnb1, hNB2⟩ := hNB
    have hndA2 : h0 ∉ A2 := (List.nodup_cons.mp hndA).1
    have hndB2 : b ∉ B2 := (List.nodup_cons.mp hndB).1
    have hallA : ∀ a, a ∈ h0 :: A2 → Allocated cc a := by
      intro a ha
      apply (hmem a).mp
      rcases List.mem_cons.mp ha with rfl | h2
      · exact List.mem_cons_self _ _
      · exact List.mem_cons_of_mem _ (List.mem_append_left _ h2)
    have hallB2 : ∀ a, a ∈ B2 → Allocated cc a := by
      intro a ha
      apply (hmem a).mp
      exact List.mem_cons_of_mem _ (List.mem_append_right _ (by simp [ha]))
    refine ⟨⟨h.len_le, h.ptr_mod, h.ptr_le, ?_, ?_, ?_⟩, rfl⟩
    · show validA cc cc.root
      exact h.root_ok
    · intro a ha
      have ha2 : Allocated cc a := ha
      show validA cc _ ∧ validA cc _
      rw [rLeft a ha2.1, rRight a ha2.1]
      exact h.links_ok a ha2
    · refine ⟨x :: ((h0 :: A2) ++ b :: B2), ?_, ?_, rfl, ?_, ?_, ?_⟩
      · refine List.nodup_cons.mpr ⟨?_, ?_⟩
        · simp only [List.mem_append, List.mem_cons]
          push_neg
          exact ⟨⟨fun hc => hxA (by simp [hc]), fun hc => hxA (by simp [hc])⟩,
            fun hc => hxB (by simp [hc]), fun hc => hxB (by simp [hc])⟩
        · exact hnd.sublist ((List.sublist_cons_self x (b :: B2)).append_left (h0 :: A2))
      · intro a
        have h2 := hmem a
        simp only [List.mem_append, List.mem_cons] at h2
        simp only [List.mem_cons, List.mem_append]
        rw [or_left_comm]
        exact h2
      · show cc.tail = lastT ADDR_NULL (x :: ((h0 :: A2) ++ b :: B2))
        rw [hh2]
        show lastT ADDR_NULL ((h0 :: A2) ++ x :: b :: B2) = lastT x ((h0 :: A2) ++ b :: B2)
        rw [lastT_append, lastT_append]
        show lastT x (b :: B2) = lastT (lastT x (h0 :: A2)) (b :: B2)
        exact lastT_irrel x (lastT x (h0 :: A2)) (b :: B2) (by simp)
      · refine ⟨?_, ?_⟩
        · rw [rNextX, hh0]
          rfl
        · rw [chainN_append]
          refine ⟨?_, ?_, ?_⟩
          · apply chainN_retarget cc _ (h0 :: A2) (headT ADDR_NULL (x :: b :: B2))
              (headT ADDR_NULL (b :: B2)) (by simp) hndA
            · rw [← hplast]
              exact rNextP
            · intro a haA hal
              have haAll : Allocated cc a := hallA a haA
              exact rNextOther a haAll.1 (fun hc => hxA (hc ▸ haA))
                (by rw [hplast]; exact hal)
            · exact hNA
          · rw [rNextOther b hb100 hbnex hbp]
            exact hnb1
          · rw [chainN_congr cc _ B2 ADDR_NULL (fun a haB => by
              have haAll : Allocated cc a := hallB2 a haB
              exact rNextOther a haAll.1
                (fun hc => hxB (by simp [hc ▸ haB]))
                (fun hc => (hdisj hpA) (hc ▸ (by simp [haB] : a ∈ x :: b :: B2))))]
            exact hNB2
      · refine ⟨rPrevX, ?_⟩
        rw [chainP_append]
        refine ⟨⟨?_, ?_⟩, ?_, ?_⟩
        · rw [← hh0]
          exact rPrevHd
        · rw [chainP_congr cc _ h0 A2 (fun a haA => by
            have haAll : Allocated cc a := hallA a (List.mem_cons_of_mem _ haA)
            exact rPrevOther a haAll.1
              (fun hc => hxA (by simp [hc ▸ haA]))
              (by rw [hh0]; intro hc; exact hndA2 (hc ▸ haA))
              (fun hc => hbA (by simp [hc ▸ haA])))]
          exact hpa2
        · rw [rPrevB, hplast]
          rfl
        · rw [chainP_congr cc _ b B2 (fun a haB => by
            have haAll : Allocated cc a := hallB2 a haB
            exact rPrevOther a haAll.1
              (fun hc => hxB (by simp [hc ▸ haB]))
              (by rw [hh0]; intro hc
                  exact (hdisj (by simp : h0 ∈ h0 :: A2)) (by simp [hc ▸ haB]))
              (fun hc => hndB2 (hc ▸ haB)))]
          exact hPB2

/- ===== The invariant across load, init and key initialisation ===== -/

theorem cacheInv_load (hmac : Hmac) (cc : Cache) (params : SessionParams)
    (h : CacheInv cc) :
    CacheInv (lru_load hmac cc params).2.1 ∧
    (lru_load hmac cc params).2.1.store_ptr = cc.store_ptr := by
  unfold lru_load
  simp only []
  by_cases h1 : cc.init_done = false
  · rw [if_pos h1]
    exact ⟨h, rfl⟩
  rw [if_neg h1]
  by_cases h2 : (find_node cc (mask_id hmac cc params.session_id)).1 ≠ ADDR_NULL
  · rw [if_pos h2]
    have hx : Allocated cc (find_node cc (mask_id hmac cc params.session_id)).1 :=
      (find_node_valid cc _ h.root_ok h.links_ok).2.2 h2
    exact cacheInv_tohead cc _ h hx
  · rw [if_neg h2]
    exact ⟨h, rfl⟩

theorem cacheInv_init (store : Nat → Nat) (store_len : Nat) (key0 : List Nat) (hash0 : Nat)
    (hlen : store_len ≤ 4294967295) :
    CacheInv (br_ssl_session_cache_lru_init store store_len key0 hash0) := by
  refine ⟨hlen, rfl, Nat.zero_le _, Or.inl rfl, ?_, ?_⟩
  · intro a ha
    have h2 : a + 100 ≤ 0 := ha.2
    omega
  · refine ⟨[], List.nodup_nil, ?_, rfl, rfl, trivial, trivial⟩
    intro a
    constructor
    · intro hc
      exact absurd hc (List.not_mem_nil a)
    · intro hc
      have h2 : a + 100 ≤ 0 := hc.2
      omega

theorem cacheInv_keyinit (drbg : Nat → List Nat) (cc : Cache) (srv : ServerCtx)
    (h : CacheInv cc) :
    CacheInv (save_key_init drbg cc srv).1 ∧
    (save_key_init drbg cc srv).1.store = cc.store ∧
    (save_key_init drbg cc srv).1.store_len = cc.store_len ∧
    (save_key_init drbg cc srv).1.store_ptr = cc.store_ptr ∧
    (save_key_init drbg cc srv).1.head = cc.head ∧
    (save_key_init drbg cc srv).1.tail = cc.tail ∧
    (save_key_init drbg cc srv).1.root = cc.root := by
  unfold save_key_init
  by_cases h1 : cc.init_done
  · rw [if_pos h1]
    exact ⟨h, rfl, rfl, rfl, rfl, rfl, rfl⟩
  · rw [if_neg h1]
    refine ⟨?_, rfl, rfl, rfl, rfl, rfl, rfl⟩
    exact cacheInv_transport cc _ rfl rfl rfl rfl rfl rfl h

/- ===== Removal preserves a list that avoids the removed entry ===== -/

theorem remove_node_keeps (cc : Cache) (xe : Nat) (M : List Nat)
    (hptr : cc.store_ptr ≤ 4294967295)
    (hroot : validA cc cc.root)
    (hl : ∀ a, Allocated cc a → validA cc (get_left cc a) ∧ validA cc (get_right cc a))
    (hx : Allocated cc xe)
    (hmemM : ∀ a, a ∈ M → Allocated cc a)
    (hLM : listOK cc M) :
    listOK (remove_node cc xe) M ∧
    validA (remove_node cc xe) (remove_node cc xe).root ∧
    (∀ a, Allocated (remove_node cc xe) a →
      validA (remove_node cc xe) (get_left (remove_node cc xe) a) ∧
      validA (remove_node cc xe) (get_right (remove_node cc xe) a)) ∧
    Allocated (remove_node cc xe) xe := by
  obtain ⟨e1, e2, e3⟩ := remove_node_effects cc xe hptr hroot hl hx
  have hptrR : (remove_node cc xe).store_ptr = cc.store_ptr := (remove_node_scalars cc xe).2.1
  have hA : Allocated (remove_node cc xe) = Allocated cc := allocated_eq_ptr cc _ hptrR
  have hV : validA (remove_node cc xe) = validA cc := validA_eq_ptr cc _ hptrR
  obtain ⟨m1, m2, m3, m4⟩ := hLM
  refine ⟨⟨?_, ?_, ?_, ?_⟩, ?_, ?_, ?_⟩
  · rw [(remove_node_scalars cc xe).2.2.2.2.2.1]
    exact m1
  · rw [(remove_node_scalars cc xe).2.2.2.2.2.2]
    exact m2
  · rw [chainN_congr cc _ M ADDR_NULL (fun a haM => (e3 a (hmemM a haM).1).2)]
    exact m3
  · rw [chainP_congr cc _ ADDR_NULL M (fun a haM => (e3 a (hmemM a haM).1).1)]
    exact m4
  · rw [hV]
    exact e1
  · intro a ha
    rw [hV]
    rw [hA] at ha
    exact e2 a ha
  · rw [hA]
    exact hx

/- ===== The invariant pieces after a tail eviction ===== -/

theorem cacheInv_evict (cc : Cache) (h : CacheInv cc) (hpos : 0 < cc.store_ptr) :
    ∃ M : List Nat, M.Nodup ∧ cc.tail ∉ M ∧
      (∀ a, (a = cc.tail ∨ a ∈ M) ↔ Allocated (lru_evict_tail cc).1 a) ∧
      listOK (lru_evict_tail cc).1 M ∧
      validA (lru_evict_tail cc).1 (lru_evict_tail cc).1.root ∧
      (∀ a, Allocated (lru_evict_tail cc).1 a →
        validA (lru_evict_tail cc).1 (get_left (lru_evict_tail cc).1 a) ∧
        validA (lru_evict_tail cc).1 (get_right (lru_evict_tail cc).1 a)) ∧
      Allocated (lru_evict_tail cc).1 cc.tail := by
  have hptr : cc.store_ptr ≤ 4294967295 := le_trans h.ptr_le h.len_le
  obtain ⟨L, hnd, hmem, hh1, hh2, hh3, hh4⟩ := h.lru
  have hm100 : cc.store_ptr % 100 = 0 := h.ptr_mod
  have h100 : 100 ≤ cc.store_ptr := by omega
  have h0all : Allocated cc 0 := ⟨by decide, by show 0 + 100 ≤ cc.store_ptr; omega⟩
  have hLne : L ≠ [] := by
    intro he
    have h0m := (hmem 0).mpr h0all
    rw [he] at h0m
    exact List.not_mem_nil 0 h0m
  obtain ⟨M, xe, hLM⟩ : ∃ M xe, L = M ++ [xe] :=
    ⟨L.dropLast, L.getLast hLne, (L.dropLast_append_getLast hLne).symm⟩
  subst hLM
  obtain ⟨hndM, hndX, hdisj⟩ := List.nodup_append.mp hnd
  have hxeM : xe ∉ M := fun hc => (hdisj hc) (by simp)
  have hxeAll : Allocated cc xe := (hmem xe).mp (by simp)
  obtain ⟨hxe32, hxe100, hxele⟩ := allocated_facts cc xe hptr hxeAll
  have htail : cc.tail = xe := by rw [hh2, lastT_append]; rfl
  obtain ⟨hNM, hNxe⟩ := (chainN_append cc M [xe] ADDR_NULL).mp hh3
  obtain ⟨hPM, hPxe⟩ := (chainP_append cc ADDR_NULL M [xe]).mp hh4
  have hpxe : get_prev cc xe = lastT ADDR_NULL M := hPxe.1
  have hN32 : ADDR_NULL < 4294967296 := by simp only [ADDR_NULL]; omega
  rw [htail]
  cases M with
  | nil =>
    have ht0 : get_prev cc xe = ADDR_NULL := hpxe
    have hE : lru_evict_tail cc =
        (remove_node { cc with tail := ADDR_NULL, head := ADDR_NULL } xe, xe) := by
      unfold lru_evict_tail
      simp only []
      rw [htail, if_pos ht0, ht0]
    set ccb : Cache := { cc with tail := ADDR_NULL, head := ADDR_NULL } with hccb
    have hptrb : ccb.store_ptr ≤ 4294967295 := hptr
    have hAb : Allocated ccb = Allocated cc := allocated_eq_ptr cc ccb rfl
    have hVb : validA ccb = validA cc := validA_eq_ptr cc ccb rfl
    have hrootb : validA ccb ccb.root := by
      rw [hVb]
      exact h.root_ok
    have hlb : ∀ a, Allocated ccb a →
        validA ccb (get_left ccb a) ∧ validA ccb (get_right ccb a) := by
      intro a ha
      rw [hAb] at ha
      rw [hVb]
      have el : get_left ccb a = get_left cc a := rfl
      have er : get_right ccb a = get_right cc a := rfl
      rw [el, er]
      exact h.links_ok a ha
    have hxb : Allocated ccb xe := by
      rw [hAb]
      exact hxeAll
    have hmb : ∀ a, a ∈ ([] : List Nat) → Allocated ccb a :=
      fun a ha => absurd ha (List.not_mem_nil a)
    have hLMb : listOK ccb [] := ⟨rfl, rfl, trivial, trivial⟩
    obtain ⟨k1, k2, k3, k4⟩ := remove_node_keeps ccb xe [] hptrb hrootb hlb hxb hmb hLMb
    rw [hE]
    refine ⟨[], List.nodup_nil, hxeM, ?_, k1, k2, k3, k4⟩
    intro a
    show (a = xe ∨ a ∈ ([] : List Nat)) ↔ Allocated (remove_node ccb xe) a
    have hAR : Allocated (remove_node ccb xe) = Allocated cc :=
      allocated_eq_ptr cc _ ((remove_node_scalars ccb xe).2.1)
    rw [hAR]
    constructor
    · intro hc
      rcases hc with rfl | hc
      · exact hxeAll
      · exact absurd hc (List.not_mem_nil a)
    · intro hc
      have h2 := (hmem a).mpr hc
      simp at h2
      exact Or.inl h2
  | cons m0 M2 =>
    have hMne : (m0 :: M2) ≠ [] := by simp
    have hpmem : get_prev cc xe ∈ m0 :: M2 := by
      rw [hpxe]
      exact lastT_mem_ne _ _ hMne
    have hpAllc : Allocated cc (get_prev cc xe) :=
      (hmem _).mp (List.mem_append_left _ hpmem)
    obtain ⟨hp32, hp100, hple⟩ := allocated_facts cc _ hptr hpAllc
    have hpnexe : get_prev cc xe ≠ xe := fun hc => hxeM (hc ▸ hpmem)
    have htne : get_prev cc xe ≠ ADDR_NULL := by
      simp only [ADDR_NULL]
      omega
    have hE : lru_evict_tail cc =
        (remove_node (set_next { cc with tail := get_prev cc xe }
          (get_prev cc xe) ADDR_NULL) xe, xe) := by
      unfold lru_evict_tail
      simp only []
      rw [htail, if_neg htne]
    set ccb : Cache := set_next { cc with tail := get_prev cc xe }
      (get_prev cc xe) ADDR_NULL with hccb
    have hptrb : ccb.store_ptr ≤ 4294967295 := hptr
    have hAb : Allocated ccb = Allocated cc := allocated_eq_ptr cc ccb rfl
    have hVb : validA ccb = validA cc := validA_eq_ptr cc ccb rfl
    have rNt : get_next ccb (get_prev cc xe) = ADDR_NULL := by
      rw [hccb]
      exact get_next_set_next_same _ _ _ hN32
    have rNo : ∀ a, a % 100 = 0 → a ≠ get_prev cc xe →
        get_next ccb a = get_next cc a := by
      intro a ha hap
      rw [hccb, get_next_set_next_other _ _ _ _ ha hp100 hap]
      rfl
    have rPo : ∀ a, a % 100 = 0 → get_prev ccb a = get_prev cc a := by
      intro a ha
      rw [hccb, get_prev_set_next _ _ _ _ ha hp100]
      rfl
    have rLo : ∀ a, a % 100 = 0 → get_left ccb a = get_left cc a := by
      intro a ha
      rw [hccb, get_left_set_next _ _ _ _ ha hp100]
      rfl
    have rRo : ∀ a, a % 100 = 0 → get_right ccb a = get_right cc a := by
      intro a ha
      rw [hccb, get_right_set_next _ _ _ _ ha hp100]
      rfl
    have hrootb : validA ccb ccb.root := by
      rw [hVb]
      exact h.root_ok
    have hlb : ∀ a, Allocated ccb a →
        validA ccb (get_left ccb a) ∧ validA ccb (get_right ccb a) := by
      intro a ha
      rw [hAb] at ha
      rw [hVb, rLo a ha.1, rRo a ha.1]
      exact h.links_ok a ha
    have hxb : Allocated ccb xe := by
      rw [hAb]
      exact hxeAll
    have hmb : ∀ a, a ∈ m0 :: M2 → Allocated ccb a := by
      intro a ha
      rw [hAb]
      exact (hmem a).mp (List.mem_append_left _ ha)
    have hLMb : listOK ccb (m0 :: M2) := by
      refine ⟨?_, ?_, ?_, ?_⟩
      · show cc.head = headT ADDR_NULL (m0 :: M2)
        rw [hh1]
        rfl
      · show get_prev cc xe = lastT ADDR_NULL (m0 :: M2)
        exact hpxe
      · apply chainN_retarget cc ccb (m0 :: M2) (headT ADDR_NULL [xe]) ADDR_NULL hMne hndM
        · rw [← hpxe]
          exact rNt
        · intro a haM hal
          exact rNo a ((hmem a).mp (List.mem_append_left _ haM)).1
            (by rw [hpxe]; exact hal)
        · exact hNM
      · rw [chainP_congr cc ccb ADDR_NULL (m0 :: M2)
          (fun a haM => rPo a ((hmem a).mp (List.mem_append_left _ haM)).1)]
        exact hPM
    obtain ⟨k1, k2, k3, k4⟩ :=
      remove_node_keeps ccb xe (m0 :: M2) hptrb hrootb hlb hxb hmb hLMb
    rw [hE]
    refine ⟨m0 :: M2, hndM, hxeM, ?_, k1, k2, k3, k4⟩
    intro a
    show (a = xe ∨ a ∈ m0 :: M2) ↔ Allocated (remove_node ccb xe) a
    have hAR : Allocated (remove_node ccb xe) = Allocated cc :=
      allocated_eq_ptr cc _ ((remove_node_scalars ccb xe).2.1)
    rw [hAR]
    constructor
    · intro hc
      rcases hc with rfl | hc
      · exact hxeAll
      · exact (hmem a).mp (List.mem_append_left _ hc)
    · intro hc
      have h2 := (hmem a).mpr hc
      rcases List.mem_append.mp h2 with h3 | h3
      · exact Or.inr h3
      · exact Or.inl (by simpa using h3)

/- ===== The invariant across lru_save ===== -/

theorem cacheInv_save (hmac : Hmac) (drbg : Nat → List Nat) (cc : Cache) (srv : ServerCtx)
    (params : SessionParams) (h : CacheInv cc) :
    CacheInv (lru_save hmac drbg cc srv params).1 := by
  unfold lru_save
  simp only []
  by_cases h1 : cc.store_len < LRU_ENTRY_LEN
  · rw [if_pos h1]
    exact h
  rw [if_neg h1]
  obtain ⟨h2, hs, hlen1, hptr1, hhd1, htl1, hrt1⟩ := cacheInv_keyinit drbg cc srv h
  set cc1 : Cache := (save_key_init drbg cc srv).1 with hcc1
  set id : List Nat := mask_id hmac cc1 params.session_id with hid
  by_cases h3 : (find_node cc1 id).1 ≠ ADDR_NULL
  · rw [if_pos h3]
    exact h2
  rw [if_neg h3]
  have h1n : ¬ cc.store_len < 100 := h1
  by_cases h4 : cc1.store_ptr > cc1.store_len - LRU_ENTRY_LEN
  · rw [if_pos h4]
    have h4n : cc1.store_ptr > cc1.store_len - 100 := h4
    have hpos : 0 < cc1.store_ptr := by
      rw [hlen1] at h4n
      omega
    obtain ⟨M, hndM, hxm, hmemM, hLM, hroot, hlinks, hxall⟩ := cacheInv_evict cc1 h2 hpos
    have he2 : (lru_evict_tail cc1).2 = cc1.tail := (lru_evict_tail_scalars cc1).2.2.2.2.2
    rw [he2]
    have hElen : (lru_evict_tail cc1).1.store_len = cc1.store_len :=
      (lru_evict_tail_scalars cc1).1
    have hEptr : (lru_evict_tail cc1).1.store_ptr = cc1.store_ptr :=
      (lru_evict_tail_scalars cc1).2.1
    have hlenE : (lru_evict_tail cc1).1.store_len ≤ 4294967295 := by
      rw [hElen, hlen1]
      exact h.len_le
    have hmodE : (lru_evict_tail cc1).1.store_ptr % LRU_ENTRY_LEN = 0 := by
      rw [hEptr, hptr1]
      exact h.ptr_mod
    have hpleE : (lru_evict_tail cc1).1.store_ptr ≤ (lru_evict_tail cc1).1.store_len := by
      rw [hEptr, hElen, hptr1, hlen1]
      exact h.ptr_le
    have hflE : linkish (lru_evict_tail cc1).1 (find_node (lru_evict_tail cc1).1 id).2 :=
      (find_node_valid (lru_evict_tail cc1).1 id hroot hlinks).2.1
    have hl2E : ∀ a, Allocated (lru_evict_tail cc1).1 a → a ≠ cc1.tail →
        validA (lru_evict_tail cc1).1 (get_left (lru_evict_tail cc1).1 a) ∧
        validA (lru_evict_tail cc1).1 (get_right (lru_evict_tail cc1).1 a) :=
      fun a ha _ => hlinks a ha
    exact (cacheInv_insert (lru_evict_tail cc1).1 cc1.tail id params M
      hlenE hmodE hpleE hroot hflE hl2E hxall hndM hxm hmemM hLM).1
  · rw [if_neg h4]
    have h4n : ¬ cc1.store_ptr > cc1.store_len - 100 := h4
    set cc2 : Cache := { cc1 with store_ptr := cc1.store_ptr + LRU_ENTRY_LEN } with hcc2
    have hm : cc1.store_ptr ≤ cc2.store_ptr := by
      show cc1.store_ptr ≤ cc1.store_ptr + 100
      omega
    have hple2 : cc2.store_ptr ≤ cc2.store_len := by
      show cc1.store_ptr + 100 ≤ cc1.store_len
      rw [hlen1] at h4n ⊢
      omega
    have hlen2 : cc2.store_len ≤ 4294967295 := by
      show cc1.store_len ≤ 4294967295
      rw [hlen1]
      exact h.len_le
    have hmod1 : cc1.store_ptr % 100 = 0 := h2.ptr_mod
    have hmod2 : cc2.store_ptr % LRU_ENTRY_LEN = 0 := by
      show (cc1.store_ptr + 100) % 100 = 0
      omega
    have hroot2 : validA cc2 cc2.root :=
      validA_mono cc1 cc2 hm _ h2.root_ok
    have hsame : find_node cc2 id = find_node_go cc1 id (nodeFuel cc2) cc1.root ADDR_NULL := by
      show find_node_go cc2 id (nodeFuel cc2) cc2.root ADDR_NULL = _
      rw [find_node_go_store_congr cc1 cc2 rfl id]
    have hfl2 : linkish cc2 (find_node cc2 id).2 := by
      rw [hsame]
      exact linkish_mono cc1 cc2 hm _
        (find_node_go_valid cc1 id h2.links_ok (nodeFuel cc2) cc1.root ADDR_NULL
          h2.root_ok (Or.inl rfl)).2.1
    have hallocs : ∀ a, Allocated cc2 a → Allocated cc1 a ∨ a = cc1.store_ptr := by
      intro a ha
      have ha1 : a % 100 = 0 := ha.1
      have ha2 : a + 100 ≤ cc1.store_ptr + 100 := ha.2
      have hb := (allocated_bump_arith cc1.store_ptr a hmod1).mp ⟨ha1, ha2⟩
      rcases hb with hb | hb
      · exact Or.inl hb
      · exact Or.inr hb
    have hl22 : ∀ a, Allocated cc2 a → a ≠ cc1.store_ptr →
        validA cc2 (get_left cc2 a) ∧ validA cc2 (get_right cc2 a) := by
      intro a ha hax
      have ha1 : Allocated cc1 a := by
        rcases hallocs a ha with hb | hb
        · exact hb
        · exact absurd hb hax
      have el : get_left cc2 a = get_left cc1 a := rfl
      have er : get_right cc2 a = get_right cc1 a := rfl
      rw [el, er]
      exact ⟨validA_mono cc1 cc2 hm _ (h2.links_ok a ha1).1,
        validA_mono cc1 cc2 hm _ (h2.links_ok a ha1).2⟩
    have hx2 : Allocated cc2 cc1.store_ptr := by
      refine ⟨hmod1, ?_⟩
      show cc1.store_ptr + 100 ≤ cc1.store_ptr + 100
      omega
    obtain ⟨L, hnd, hmemL, hg1, hg2, hg3, hg4⟩ := h2.lru
    have hxm : cc1.store_ptr ∉ L := by
      intro hc
      have h5 : cc1.store_ptr + 100 ≤ cc1.store_ptr := ((hmemL _).mp hc).2
      omega
    have hmem2 : ∀ a, (a = cc1.store_ptr ∨ a ∈ L) ↔ Allocated cc2 a := by
      intro a
      constructor
      · rintro (rfl | haL)
        · exact hx2
        · exact allocated_mono cc1 cc2 hm a ((hmemL a).mp haL)
      · intro ha
        rcases hallocs a ha with hb | hb
        · exact Or.inr ((hmemL a).mpr hb)
        · exact Or.inl hb
    have hLM2 : listOK cc2 L := by
      refine ⟨hg1, hg2, ?_, ?_⟩
      · rw [chainN_congr cc1 cc2 L ADDR_NULL (fun a _ => rfl)]
        exact hg3
      · rw [chainP_congr cc1 cc2 ADDR_NULL L (fun a _ => rfl)]
        exact hg4
    exact (cacheInv_insert cc2 cc1.store_ptr id params L
      hlen2 hmod2 hple2 hroot2 hfl2 hl22 hx2 hnd hxm hmem2 hLM2).1

/- ===== The inductive invariant implies the claimed well-formedness ===== -/

theorem cacheInv_claimed (cc : Cache) (h : CacheInv cc) : ClaimedInv cc := by
  obtain ⟨L, hnd, hmem, hh1, hh2, hh3, hh4⟩ := h.lru
  have hvmem : ∀ a, a ∈ L → validA cc a := fun a ha => Or.inr ((hmem a).mp ha)
  refine ⟨h.ptr_mod, h.ptr_le, ?_, ?_, h.root_ok, ?_⟩
  · rw [hh1]
    cases L with
    | nil => exact Or.inl rfl
    | cons a t => exact hvmem a (by simp)
  · rw [hh2]
    cases L with
    | nil => exact Or.inl rfl
    | cons a t =>
      exact hvmem _ (lastT_mem_ne ADDR_NULL (a :: t) (by simp))
  · intro a ha
    have haL : a ∈ L := (hmem a).mpr ha
    refine ⟨?_, ?_, (h.links_ok a ha).1, (h.links_ok a ha).2⟩
    · rcases chainP_mem cc L ADDR_NULL a hh4 haL with hc | hc
      · exact hvmem _ hc
      · exact Or.inl hc
    · rcases chainN_mem cc L ADDR_NULL a hh3 haL with hc | hc
      · exact hvmem _ hc
      · exact Or.inl hc

/- ===== Root-level facts about the tree walk and the surgery ===== -/

theorem find_node_go_null (cc : Cache) (id : List Nat) :
    ∀ f y, find_node_go cc id f ADDR_NULL y = (ADDR_NULL, y) := by
  intro f y
  cases f with
  | zero => rfl
  | succ n => simp [find_node_go]

theorem find_node_root_null (cc : Cache) (id : List Nat) (hr : cc.root = ADDR_NULL) :
    find_node cc id = (ADDR_NULL, ADDR_NULL) := by
  show find_node_go cc id (nodeFuel cc) cc.root ADDR_NULL = _
  rw [hr]
  exact find_node_go_null cc id (nodeFuel cc) ADDR_NULL

theorem find_node_root_eq (cc : Cache) (id : List Nat) (hr : cc.root ≠ ADDR_NULL)
    (hcmp : cmpBytes id
      (readBytes cc.store (cc.root + SESSION_ID_OFF) SESSION_ID_LEN) = Ordering.eq) :
    (find_node cc id).1 = cc.root := by
  show (find_node_go cc id (nodeFuel cc) cc.root ADDR_NULL).1 = cc.root
  have hf : nodeFuel cc = cc.store_ptr / LRU_ENTRY_LEN + 1 := rfl
  rw [hf]
  unfold find_node_go
  rw [if_neg hr, hcmp]

theorem set_link_root (cc : Cache) (alx v : Nat) :
    (set_link cc alx v).root = if alx = ADDR_NULL then v else cc.root := by
  unfold set_link
  by_cases h : alx = ADDR_NULL
  · rw [if_pos h, if_pos h]
  · rw [if_neg h, if_neg h]

theorem remove_node_root_of_null (cc : Cache) (x : Nat) (hr : cc.root = ADDR_NULL) :
    (remove_node cc x).root = (find_replacement_node cc x).1 := by
  have e : remove_node cc x =
      set_link (set_link cc (find_replacement_node cc x).2 ADDR_NULL)
        (find_node cc (readBytes cc.store (x + SESSION_ID_OFF) SESSION_ID_LEN)).2
        (find_replacement_node cc x).1 := rfl
  rw [e, find_node_root_null cc _ hr, set_link_root]
  simp

theorem lru_insert_root_ne (cc : Cache) (x : Nat) (id : List Nat) (params : SessionParams)
    (hx : x ≠ ADDR_NULL) (hr : cc.root = ADDR_NULL ∨ cc.root = x) :
    (lru_insert cc x id params).root ≠ ADDR_NULL := by
  have h1 : (lru_insert cc x id params).root = (lru_insert_link cc x id).root := rfl
  have h2 := (lru_insert_link_scalars cc x id).2.2.2.2
  rw [h1, h2, set_link_root]
  by_cases ha : (find_node cc id).2 = ADDR_NULL
  · rw [if_pos ha]
    exact hx
  · rw [if_neg ha]
    rcases hr with hr | hr
    · have hn := find_node_root_null cc id hr
      rw [hn] at ha
      exact absurd rfl ha
    · rw [hr]
      exact hx

theorem lru_save_ptr_mono (hmac : Hmac) (drbg : Nat → List Nat) (cc : Cache)
    (srv : ServerCtx) (params : SessionParams) :
    cc.store_ptr ≤ (lru_save hmac drbg cc srv params).1.store_ptr := by
  unfold lru_save
  simp only []
  by_cases h1 : cc.store_len < LRU_ENTRY_LEN
  · rw [if_pos h1]
  · rw [if_neg h1]
    have hptr1 : (save_key_init drbg cc srv).1.store_ptr = cc.store_ptr := by
      unfold save_key_init
      split <;> rfl
    set cc1 : Cache := (save_key_init drbg cc srv).1 with hcc1
    set id : List Nat := mask_id hmac cc1 params.session_id with hid
    by_cases h3 : (find_node cc1 id).1 ≠ ADDR_NULL
    · rw [if_pos h3]
      show cc.store_ptr ≤ cc1.store_ptr
      rw [hptr1]
    · rw [if_neg h3]
      by_cases h4 : cc1.store_ptr > cc1.store_len - LRU_ENTRY_LEN
      · rw [if_pos h4]
        show cc.store_ptr ≤ (lru_insert (lru_evict_tail cc1).1 (lru_evict_tail cc1).2
          id params).store_ptr
        rw [(lru_insert_scalars _ _ _ _).2.1, (lru_evict_tail_scalars cc1).2.1, hptr1]
      · rw [if_neg h4]
        have e := (lru_insert_scalars { cc1 with store_ptr := cc1.store_ptr + LRU_ENTRY_LEN }
          cc1.store_ptr id params).2.1
        rw [e]
        show cc.store_ptr ≤ cc1.store_ptr + 100
        rw [hptr1]
        omega

/- ===== What a non-dropped save writes ===== -/

theorem lru_save_inserted (hmac : Hmac) (drbg : Nat → List Nat) (cc : Cache)
    (srv : ServerCtx) (params : SessionParams) (h : CacheInv cc)
    (hsid : params.session_id.length = SESSION_ID_LEN)
    (hms : params.master_secret.length = MASTER_SECRET_LEN)
    (h1 : ¬ cc.store_len < LRU_ENTRY_LEN)
    (hcol : (find_node (save_key_init drbg cc srv).1
      (mask_id hmac (save_key_init drbg cc srv).1 params.session_id)).1 = ADDR_NULL) :
    readBytes (lru_save hmac drbg cc srv params).1.store
        ((lru_save hmac drbg cc srv params).1.head + SESSION_ID_OFF) SESSION_ID_LEN =
      mask_id hmac (save_key_init drbg cc srv).1 params.session_id ∧
    readBytes (lru_save hmac drbg cc srv params).1.store
        ((lru_save hmac drbg cc srv params).1.head + MASTER_SECRET_OFF) MASTER_SECRET_LEN =
      params.master_secret ∧
    dec16be (lru_save hmac drbg cc srv params).1.store
        ((lru_save hmac drbg cc srv params).1.head + VERSION_OFF) = params.version % 65536 ∧
    dec16be (lru_save hmac drbg cc srv params).1.store
        ((lru_save hmac drbg cc srv params).1.head + CIPHER_SUITE_OFF) =
      params.cipher_suite % 65536 ∧
    Allocated (lru_save hmac drbg cc srv params).1 (lru_save hmac drbg cc srv params).1.head := by
  obtain ⟨h2, hs, hlen1, hptr1, hhd1, htl1, hrt1⟩ := cacheInv_keyinit drbg cc srv h
  have hshape := lru_save_shape hmac drbg cc srv params h1 hcol
  set cc1 : Cache := (save_key_init drbg cc srv).1 with hcc1
  set id : List Nat := mask_id hmac cc1 params.session_id with hid
  have hidlen : id.length = SESSION_ID_LEN := mask_id_length hmac cc1 params.session_id hsid
  rw [hshape]
  by_cases h4 : cc1.store_ptr > cc1.store_len - LRU_ENTRY_LEN
  · rw [if_pos h4]
    have hpos : 0 < cc1.store_ptr := by
      have ha : ¬ cc.store_len < 100 := h1
      have hb : cc1.store_ptr > cc1.store_len - 100 := h4
      rw [hlen1] at hb
      omega
    obtain ⟨M, hndM, hxm, hmemM, hLM, hroot, hlinks, hxall⟩ := cacheInv_evict cc1 h2 hpos
    have he2 : (lru_evict_tail cc1).2 = cc1.tail := (lru_evict_tail_scalars cc1).2.2.2.2.2
    have hsc := lru_insert_scalars (lru_evict_tail cc1).1 (lru_evict_tail cc1).2 id params
    refine ⟨lru_insert_key_readback _ _ _ _ hidlen, ?_, ?_, ?_, ?_⟩
    · rw [hsc.2.2.2.2.2]
      exact (lru_insert_data _ _ _ _).2.1 hms
    · rw [hsc.2.2.2.2.2]
      exact (lru_insert_data _ _ _ _).2.2.1
    · rw [hsc.2.2.2.2.2]
      exact (lru_insert_data _ _ _ _).2.2.2.1
    · rw [hsc.2.2.2.2.2, he2]
      have hA : Allocated (lru_insert (lru_evict_tail cc1).1 cc1.tail id params) =
          Allocated (lru_evict_tail cc1).1 := by
        refine allocated_eq_ptr _ _ ?_
        rw [← he2]
        exact hsc.2.1
      rw [hA]
      exact hxall
  · rw [if_neg h4]
    have hsc := lru_insert_scalars { cc1 with store_ptr := cc1.store_ptr + LRU_ENTRY_LEN }
      cc1.store_ptr id params
    refine ⟨lru_insert_key_readback _ _ _ _ hidlen, ?_, ?_, ?_, ?_⟩
    · rw [hsc.2.2.2.2.2]
      exact (lru_insert_data _ _ _ _).2.1 hms
    · rw [hsc.2.2.2.2.2]
      exact (lru_insert_data _ _ _ _).2.2.1
    · rw [hsc.2.2.2.2.2]
      exact (lru_insert_data _ _ _ _).2.2.2.1
    · rw [hsc.2.2.2.2.2]
      have hA : Allocated (lru_insert { cc1 with store_ptr := cc1.store_ptr + LRU_ENTRY_LEN }
            cc1.store_ptr id params) =
          Allocated { cc1 with store_ptr := cc1.store_ptr + LRU_ENTRY_LEN } :=
        allocated_eq_ptr _ _ hsc.2.1
      rw [hA]
      refine ⟨h2.ptr_mod, ?_⟩
      show cc1.store_ptr + 100 ≤ cc1.store_ptr + 100
      omega

/- ===== A save changes the state exactly when it is not dropped ===== -/

theorem lru_save_unchanged_iff (hmac : Hmac) (drbg : Nat → List Nat) (cc : Cache)
    (srv : ServerCtx) (params : SessionParams) (h : CacheInv cc)
    (hsid : params.session_id.length = SESSION_ID_LEN) :
    ((∀ i, (lru_save hmac drbg cc srv params).1.store i = cc.store i) ∧
     (lru_save hmac drbg cc srv params).1.store_ptr = cc.store_ptr ∧
     (lru_save hmac drbg cc srv params).1.head = cc.head ∧
     (lru_save hmac drbg cc srv params).1.tail = cc.tail ∧
     (lru_save hmac drbg cc srv params).1.root = cc.root) ↔
    (cc.store_len < LRU_ENTRY_LEN ∨
     (find_node (save_key_init drbg cc srv).1
       (mask_id hmac (save_key_init drbg cc srv).1 params.session_id)).1 ≠ ADDR_NULL) := by
  obtain ⟨h2, hs, hlen1, hptr1, hhd1, htl1, hrt1⟩ := cacheInv_keyinit drbg cc srv h
  set cc1 : Cache := (save_key_init drbg cc srv).1 with hcc1
  set id : List Nat := mask_id hmac cc1 params.session_id with hid
  have hidlen : id.length = SESSION_ID_LEN := mask_id_length hmac cc1 params.session_id hsid
  have hdrop1 : cc.store_len < LRU_ENTRY_LEN →
      (∀ i, (lru_save hmac drbg cc srv params).1.store i = cc.store i) ∧
      (lru_save hmac drbg cc srv params).1.store_ptr = cc.store_ptr ∧
      (lru_save hmac drbg cc srv params).1.head = cc.head ∧
      (lru_save hmac drbg cc srv params).1.tail = cc.tail ∧
      (lru_save hmac drbg cc srv params).1.root = cc.root := by
    intro h1
    have e : lru_save hmac drbg cc srv params = (cc, srv) := by
      unfold lru_save
      rw [if_pos h1]
    rw [e]
    exact ⟨fun i => rfl, rfl, rfl, rfl, rfl⟩
  have hdrop2 : ¬ cc.store_len < LRU_ENTRY_LEN → (find_node cc1 id).1 ≠ ADDR_NULL →
      (∀ i, (lru_save hmac drbg cc srv params).1.store i = cc.store i) ∧
      (lru_save hmac drbg cc srv params).1.store_ptr = cc.store_ptr ∧
      (lru_save hmac drbg cc srv params).1.head = cc.head ∧
      (lru_save hmac drbg cc srv params).1.tail = cc.tail ∧
      (lru_save hmac drbg cc srv params).1.root = cc.root := by
    intro h1 h3
    have e : lru_save hmac drbg cc srv params = (cc1, (save_key_init drbg cc srv).2) := by
      unfold lru_save
      rw [if_neg h1]
      simp only []
      rw [if_pos h3]
    rw [e]
    exact ⟨fun i => by rw [hs], hptr1, hhd1, htl1, hrt1⟩
  constructor
  · intro hU
    by_cases h1 : cc.store_len < LRU_ENTRY_LEN
    · exact Or.inl h1
    by_cases h3 : (find_node cc1 id).1 ≠ ADDR_NULL
    · exact Or.inr h3
    exfalso
    have hcol : (find_node cc1 id).1 = ADDR_NULL := not_not.mp h3
    have hshape := lru_save_shape hmac drbg cc srv params h1 hcol
    by_cases h4 : cc1.store_ptr > cc1.store_len - LRU_ENTRY_LEN
    · rw [if_pos h4] at hshape
      rw [hshape] at hU
      have hpos : 0 < cc1.store_ptr := by
        have ha : ¬ cc.store_len < 100 := h1
        have hb : cc1.store_ptr > cc1.store_len - 100 := h4
        rw [hlen1] at hb
        omega
      obtain ⟨L, hnd, hmem, hg1, hg2, hg3, hg4⟩ := h2.lru
      have he2 : (lru_evict_tail cc1).2 = cc1.tail := (lru_evict_tail_scalars cc1).2.2.2.2.2
      have hsc := lru_insert_scalars (lru_evict_tail cc1).1 (lru_evict_tail cc1).2 id params
      have hUh : (lru_insert (lru_evict_tail cc1).1 (lru_evict_tail cc1).2 id params).head =
          cc.head := hU.2.2.1
      rw [hsc.2.2.2.2.2, he2] at hUh
      have hceq : cc1.tail = cc1.head := by
        rw [hhd1]
        exact hUh
      cases L with
      | nil =>
        have h0all : Allocated cc1 0 := by
          have hm100 : cc1.store_ptr % 100 = 0 := h2.ptr_mod
          exact ⟨by decide, by show 0 + 100 ≤ cc1.store_ptr; omega⟩
        have h0m := (hmem 0).mpr h0all
        exact List.not_mem_nil 0 h0m
      | cons e0 L2 =>
        cases L2 with
        | cons e1 L3 =>
          have hhead : cc1.head = e0 := hg1
          have htail1 : cc1.tail = lastT ADDR_NULL (e0 :: e1 :: L3) := hg2
          have hx1 : lastT ADDR_NULL (e0 :: e1 :: L3) = e0 := by
            rw [← htail1, hceq, hhead]
          have hlm : lastT ADDR_NULL (e0 :: e1 :: L3) ∈ e1 :: L3 := by
            show lastT e0 (e1 :: L3) ∈ e1 :: L3
            exact lastT_mem_ne e0 (e1 :: L3) (by simp)
          rw [hx1] at hlm
          exact (List.nodup_cons.mp hnd).1 hlm
        | nil =>
          have hhead : cc1.head = e0 := hg1
          have htl : cc1.tail = e0 := hg2
          have hprev0 : get_prev cc1 e0 = ADDR_NULL := hg4.1
          have hxeAll : Allocated cc1 e0 := (hmem e0).mp (by simp)
          have hptrc : cc1.store_ptr ≤ 4294967295 := le_trans h2.ptr_le h2.len_le
          obtain ⟨he32, he100, hele⟩ := allocated_facts cc1 e0 hptrc hxeAll
          have hene : e0 ≠ ADDR_NULL := by simp only [ADDR_NULL]; omega
          have hOnly : ∀ a, Allocated cc1 a → a = e0 := by
            intro a ha
            have h5 := (hmem a).mpr ha
            simpa using h5
          have hE : lru_evict_tail cc1 =
              (remove_node { cc1 with tail := ADDR_NULL, head := ADDR_NULL } e0, e0) := by
            unfold lru_evict_tail
            simp only []
            rw [htl, hprev0, if_pos rfl]
          set ccb : Cache := { cc1 with tail := ADDR_NULL, head := ADDR_NULL } with hccb
          rcases h2.root_ok with hroot0 | hallr
          · have hccbroot : ccb.root = ADDR_NULL := hroot0
            have hAb : Allocated ccb = Allocated cc1 := allocated_eq_ptr cc1 ccb rfl
            have hVb : validA ccb = validA cc1 := validA_eq_ptr cc1 ccb rfl
            have hlb : ∀ a, Allocated ccb a →
                validA ccb (get_left ccb a) ∧ validA ccb (get_right ccb a) := by
              intro a ha
              rw [hAb] at ha
              rw [hVb]
              have el : get_left ccb a = get_left cc1 a := rfl
              have er : get_right ccb a = get_right cc1 a := rfl
              rw [el, er]
              exact h2.links_ok a ha
            have hxb : Allocated ccb e0 := by
              rw [hAb]
              exact hxeAll
            have hrepl := (find_replacement_valid ccb e0 hlb hxb).1
            have hq1root : (remove_node ccb e0).root = (find_replacement_node ccb e0).1 :=
              remove_node_root_of_null ccb e0 hccbroot
            have hq1or : (remove_node ccb e0).root = ADDR_NULL ∨
                (remove_node ccb e0).root = e0 := by
              rw [hq1root]
              rcases hrepl with hr | hr
              · exact Or.inl hr
              · right
                rw [hAb] at hr
                exact hOnly _ hr
            have hSroot := lru_insert_root_ne (remove_node ccb e0) e0 id params hene hq1or
            have hUr : (lru_insert (lru_evict_tail cc1).1 (lru_evict_tail cc1).2
                id params).root = cc.root := hU.2.2.2.2
            rw [hE] at hUr
            have hUr2 : (lru_insert (remove_node ccb e0) e0 id params).root = cc.root := hUr
            rw [← hrt1, hroot0] at hUr2
            exact hSroot hUr2
          · have hrx : cc1.root = e0 := hOnly _ hallr
            have hrb : readBytes (lru_insert (lru_evict_tail cc1).1 e0
                id params).store (e0 + SESSION_ID_OFF) SESSION_ID_LEN =
                readBytes cc.store (e0 + SESSION_ID_OFF) SESSION_ID_LEN := by
              refine readBytes_congr _ _ _ _ (fun i _ _ => ?_)
              have h6 : (lru_insert (lru_evict_tail cc1).1 (lru_evict_tail cc1).2
                  id params).store i = cc.store i := hU.1 i
              rw [he2, htl] at h6
              exact h6
            have hread := (lru_insert_data (lru_evict_tail cc1).1 (lru_evict_tail cc1).2
              id params).1 hidlen
            rw [he2, htl] at hread
            have hidq : id = readBytes cc1.store (e0 + SESSION_ID_OFF) SESSION_ID_LEN := by
              rw [← hread, hrb, hs]
            have hcmp : cmpBytes id
                (readBytes cc1.store (cc1.root + SESSION_ID_OFF) SESSION_ID_LEN) =
                Ordering.eq := by
              rw [hrx]
              exact (cmpBytes_eq_iff _ _).mpr hidq
            have hfind := find_node_root_eq cc1 id (by rw [hrx]; exact hene) hcmp
            rw [hcol] at hfind
            rw [hrx] at hfind
            exact hene hfind.symm
    · rw [if_neg h4] at hshape
      rw [hshape] at hU
      have hUptr : (lru_insert { cc1 with store_ptr := cc1.store_ptr + LRU_ENTRY_LEN }
          cc1.store_ptr id params).store_ptr = cc.store_ptr := hU.2.1
      rw [(lru_insert_scalars _ _ _ _).2.1] at hUptr
      have hUptr2 : cc1.store_ptr + 100 = cc.store_ptr := hUptr
      rw [hptr1] at hUptr2
      omega
  · intro hd
    rcases hd with h1 | h3
    · exact hdrop1 h1
    · by_cases h1 : cc.store_len < LRU_ENTRY_LEN
      · exact hdrop1 h1
      · exact hdrop2 h1 h3

/-- C10: init establishes the allocation invariant (store_ptr a multiple of
100, bounded by store_len, root and the links of every allocated entry
valid), save and load preserve it with store_ptr never decreasing, and the
invariant implies the claimed well-formedness of head, tail, root and the
prev/next/left/right fields of every allocated entry. -/
theorem c10_allocation_invariant :
    (∀ store store_len key0 hash0, store_len ≤ 4294967295 →
      CacheInv (br_ssl_session_cache_lru_init store store_len key0 hash0)) ∧
    (∀ hmac drbg cc srv params, CacheInv cc →
      CacheInv (lru_save hmac drbg cc srv params).1 ∧
      cc.store_ptr ≤ (lru_save hmac drbg cc srv params).1.store_ptr) ∧
    (∀ hmac cc params, CacheInv cc →
      CacheInv (lru_load hmac cc params).2.1 ∧
      (lru_load hmac cc params).2.1.store_ptr = cc.store_ptr) ∧
    (∀ cc, CacheInv cc → ClaimedInv cc) := by
  refine ⟨?_, ?_, ?_, ?_⟩
  · intro store store_len key0 hash0 hlen
    exact cacheInv_init store store_len key0 hash0 hlen
  · intro hmac drbg cc srv params h
    exact ⟨cacheInv_save hmac drbg cc srv params h, lru_save_ptr_mono hmac drbg cc srv params⟩
  · intro hmac cc params h
    exact cacheInv_load hmac cc params h
  · intro cc h
    exact cacheInv_claimed cc h

theorem c10_witness :
    CacheInv cc0 ∧ ClaimedInv cc0 ∧
    CacheInv (lru_save hmacId drbg0 cc0 srv0 pA).1 ∧
    CacheInv (lru_load hmacId cc0 pA).2.1 := by
  have h := c10_allocation_invariant
  have h0 : CacheInv cc0 := h.1 store0 300 [] 0 (by decide)
  exact ⟨h0, h.2.2.2 cc0 h0, (h.2.1 hmacId drbg0 cc0 srv0 pA h0).1,
    (h.2.2.1 hmacId cc0 pA h0).1⟩

/-- C5: under the state invariant, a save leaves the store contents,
store_ptr, head, tail and root all unchanged exactly when the slab is
smaller than one entry or the masked ID is already present in the tree;
in every other case the new entry is at the list head and carries the
masked ID, master secret, version and cipher suite of the session. -/
theorem c5_save_drop_atomicity (hmac : Hmac) (drbg : Nat → List Nat) (cc : Cache)
    (srv : ServerCtx) (params : SessionParams) (h : CacheInv cc)
    (hsid : params.session_id.length = SESSION_ID_LEN)
    (hms : params.master_secret.length = MASTER_SECRET_LEN) :
    (((∀ i, (lru_save hmac drbg cc srv params).1.store i = cc.store i) ∧
      (lru_save hmac drbg cc srv params).1.store_ptr = cc.store_ptr ∧
      (lru_save hmac drbg cc srv params).1.head = cc.head ∧
      (lru_save hmac drbg cc srv params).1.tail = cc.tail ∧
      (lru_save hmac drbg cc srv params).1.root = cc.root) ↔
      (cc.store_len < LRU_ENTRY_LEN ∨
       (find_node (save_key_init drbg cc srv).1
         (mask_id hmac (save_key_init drbg cc srv).1 params.session_id)).1 ≠ ADDR_NULL)) ∧
    (¬ cc.store_len < LRU_ENTRY_LEN →
      (find_node (save_key_init drbg cc srv).1
        (mask_id hmac (save_key_init drbg cc srv).1 params.session_id)).1 = ADDR_NULL →
      readBytes (lru_save hmac drbg cc srv params).1.store
          ((lru_save hmac drbg cc srv params).1.head + SESSION_ID_OFF) SESSION_ID_LEN =
        mask_id hmac (save_key_init drbg cc srv).1 params.session_id ∧
      readBytes (lru_save hmac drbg cc srv params).1.store
          ((lru_save hmac drbg cc srv params).1.head + MASTER_SECRET_OFF) MASTER_SECRET_LEN =
        params.master_secret ∧
      dec16be (lru_save hmac drbg cc srv params).1.store
          ((lru_save hmac drbg cc srv params).1.head + VERSION_OFF) = params.version % 65536 ∧
      dec16be (lru_save hmac drbg cc srv params).1.store
          ((lru_save hmac drbg cc srv params).1.head + CIPHER_SUITE_OFF) =
        params.cipher_suite % 65536 ∧
      Allocated (lru_save hmac drbg cc srv params).1
        (lru_save hmac drbg cc srv params).1.head) := by
  refine ⟨lru_save_unchanged_iff hmac drbg cc srv params h hsid, ?_⟩
  intro h1 hcol
  exact lru_save_inserted hmac drbg cc srv params h hsid hms h1 hcol

theorem c5_witness :
    ¬ ((∀ i, (lru_save hmacId drbg0 cc0 srv0 pA).1.store i = cc0.store i) ∧
       (lru_save hmacId drbg0 cc0 srv0 pA).1.store_ptr = cc0.store_ptr ∧
       (lru_save hmacId drbg0 cc0 srv0 pA).1.head = cc0.head ∧
       (lru_save hmacId drbg0 cc0 srv0 pA).1.tail = cc0.tail ∧
       (lru_save hmacId drbg0 cc0 srv0 pA).1.root = cc0.root) := by
  have h := c5_save_drop_atomicity hmacId drbg0 cc0 srv0 pA
    (cacheInv_init store0 300 [] 0 (by decide)) (by decide) (by decide)
  intro hU
  rcases h.1.mp hU with hc | hc
  · exact absurd hc (by decide)
  · exact hc (by decide)
